import Mathlib

/-!
Shallow embedding of the streaming tool-calling orchestration code of the
agent-dev-guide repository:

* the amazon-agent loop (`examples/amazon-agent/app/agent.py`, function `prompt`
  together with `execute_openai_compatible_toolcall` and `get_agent_for_tool`),
* the TheTroubleMaker-agent loop (`TheTroubleMaker-agent/app/apis.py`, function
  `handle_request` and the SSE wrapper `to_bytes`),
* the amazon-agent server SSE wrapper (`examples/amazon-agent/server.py`,
  function `stream_reader`),
* the prompt-based-agent dispatcher (`examples/prompt-based-agent/app/utils.py`,
  function `execute_openai_compatible_toolcall`),
* the chat-history refiners (`refine_chat_history` of both example agents).

External collaborators (the language model, the JSON parser of the standard
library, the browser-backed tool handlers, the MCP toolkit) are parameters of
the embedding: the model is a sequence of turns, a tool handler is a function
from name and arguments to its yielded messages and optional raised exception.
-/

/-- A tool call as assembled from an OpenAI-style completion: `call.id`,
`call.function.name`, `call.function.arguments` (raw JSON text). -/
structure ToolCall where
  id : String
  name : String
  arguments : String
deriving DecidableEq, Repr

/-- One conversation message as appended to the mutable `messages` list. -/
structure Msg where
  role : String
  content : String
  tool_calls : List ToolCall
  tool_call_id : Option String
deriving DecidableEq, Repr

/-- The exception classes distinguished by the `except` chains of the loops. -/
inductive PyExc
| apiConnection (s : String)
| rateLimit (s : String)
| apiError (s : String)
| httpStatus (s : String)
| other (s : String)
deriving DecidableEq, Repr

/-- One model completion: optional text content plus the (possibly empty)
list of tool calls carried by the assistant message. -/
structure Turn where
  content : Option String
  tool_calls : List ToolCall
deriving DecidableEq, Repr

/-- The `tool_call_id`s of the tool-role messages of a message list, in order. -/
def toolIds (l : List Msg) : List String :=
  l.filterMap (fun m => if m.role == "tool" then m.tool_call_id else none)

def toolMsg (id content : String) : Msg := ⟨"tool", content, [], some id⟩

def sysMsg (content : String) : Msg := ⟨"system", content, [], none⟩

def hexDigit (n : Nat) : Char :=
  if n < 10 then Char.ofNat (48 + n) else Char.ofNat (87 + (n % 16))

/-- `\uXXXX` escape used by `json.dumps` for control and non-ASCII characters. -/
def uEscape (n : Nat) : String :=
  "\\u" ++ String.mk [hexDigit (n / 4096 % 16), hexDigit (n / 256 % 16),
                      hexDigit (n / 16 % 16), hexDigit (n % 16)]

def jsonEscapeChar (c : Char) : String :=
  if c == '\\' then "\\\\"
  else if c == '\"' then "\\\""
  else if c == '\n' then "\\n"
  else if c == '\t' then "\\t"
  else if c == '\r' then "\\r"
  else if c.toNat < 32 || c.toNat > 126 then uEscape c.toNat
  else String.singleton c

/-- `json.dumps` applied to a string value (default `ensure_ascii=True`;
characters above the basic multilingual plane are not split into surrogate
pairs here, the embedded strings are ASCII). -/
def pyJsonDumps (s : String) : String :=
  "\"" ++ String.join (s.toList.map jsonEscapeChar) ++ "\""

namespace AmazonAgent

/-- Keys of `shopping_browsing_tool_function_map` (agent.py lines 23-30). -/
def shopping_browsing_tools : List String :=
  ["search_products", "get_product_detail", "add_to_cart", "go_to_cart",
   "adjust_cart", "check_out"]

/-- Keys of `purchase_management_tool_function_map` (agent.py lines 33-37). -/
def purchase_management_tools : List String :=
  ["get_order_history", "cancel_order", "request_refund"]

/-- agent.py lines 40-45. -/
def get_agent_for_tool (tool_name : String) : String :=
  if shopping_browsing_tools.contains tool_name then "shopping_browsing"
  else if purchase_management_tools.contains tool_name then "purchase_management"
  else "unknown"

/-- Observable behaviour of iterating one tool handler: the string messages it
yields, then the message of the exception it raises, if any. -/
structure ExecOutcome where
  msgs : List String
  err : Option String
deriving DecidableEq, Repr

/-- External collaborators of the loop: `json.loads` on an arguments string
(`.error` means the parse raised, carrying the exception text; `.ok` carries
the display form of the parsed object used in f-strings), and the registered
browser-backed tool handlers. -/
structure Env where
  parse : String → Except String String
  run : String → String → ExecOutcome

/-- Python `repr` of a list of strings, as interpolated by f-strings. -/
def pyStrListRepr (l : List String) : String :=
  "[" ++ String.intercalate ", " (l.map (fun s => "\x27" ++ s ++ "\x27")) ++ "]"

def unknownToolText (name : String) : String :=
  "Unknown tool call: " ++ name ++ "; Available tools are: " ++
    pyStrListRepr (shopping_browsing_tools ++ purchase_management_tools)

/-- agent.py lines 47-64: resolve the handler through the map of the given
agent type; a missing handler yields a descriptive text instead of raising. -/
def execute_openai_compatible_toolcall (env : Env) (name args agent_type : String) :
    ExecOutcome :=
  let registered :=
    if agent_type == "shopping_browsing" then shopping_browsing_tools.contains name
    else if agent_type == "purchase_management" then purchase_management_tools.contains name
    else false
  if registered then env.run name args
  else ⟨[unknownToolText name], none⟩

/-- agent.py line 125. -/
def purchase_handoff_text : String :=
  "You are a purchase management agent. You are responsible for managing the purchase of a product. You are not allowed to search for products or add them to the cart."

/-- agent.py line 127. -/
def shopping_handoff_text : String :=
  "You are a shopping browsing agent. You are responsible for browsing the product and adding them to the cart."

/-- agent.py line 138. -/
def skipText (name args : String) : String :=
  "Tool call `" ++ name ++ "` has been executed before with the same arguments: "
    ++ args ++ ". Skipping"

/-- agent.py line 141. -/
def excSkipText : String := "Exception raised. Skipping task...\n"

/-- agent.py line 174. -/
def errText (e name args : String) : String :=
  "Something went wrong, " ++ e ++ ". After then, Re-execute " ++ name
    ++ " with these arguments: " ++ args

/-- `refine_mcp_response` (app/utils.py lines 309-325) on a string value. -/
def refine_mcp_response (s : String) : String := s

/-- State of one request in `prompt`: the message list, `previous_agent`,
the `calls` counter, plus two ghost logs used only by the theorems: the
identity keys of dispatched (actually executed) calls, and one record
`(tools_attached, calls, has_exception)` per model invocation. -/
structure AmState where
  messages : List Msg
  previous_agent : Option String
  calls : Nat
  dispatchLog : List String
  modelLog : List (Bool × Nat × Bool)
deriving DecidableEq, Repr

/-- The per-batch `executed` set (agent.py line 114) alongside the state. -/
structure BatchSt where
  base : AmState
  executed : List String
deriving DecidableEq, Repr

/-- Which of the three result branches of agent.py lines 137-184 answered a
call (ghost observation). -/
inductive CallBranch
| dup
| excSkip
| exec
deriving DecidableEq, Repr

/-- agent.py lines 123-127: the transient system message injected on an agent
handoff, as the list appended to `messages` (empty when the guard does not
fire). `previous_agent` is truthy iff it is a non-empty string. -/
def handoffList (previous_agent : Option String) (agent_type : String) : List Msg :=
  if ((match previous_agent with
       | none => false
       | some p => p != "" && agent_type != p) && agent_type != "unknown") then
    if agent_type == "purchase_management" then [sysMsg purchase_handoff_text]
    else if agent_type == "shopping_browsing" then [sysMsg shopping_handoff_text]
    else []
  else []

/-- agent.py lines 116-192, one iteration of the `for call in ... tool_calls`
loop. `.error e` is an exception escaping to the outer `try` (only
`json.loads` can raise here; handler exceptions are caught in the inner
`try`). The returned `Bool` is the value of `has_exception` after the
iteration, which decides the `break` at line 194. -/
def processCall (env : Env) (b : BatchSt) (c : ToolCall) :
    Except String (BatchSt × Bool × CallBranch) :=
  match env.parse c.arguments with
  | .error e => .error e
  | .ok args =>
    let agent_type := get_agent_for_tool c.name
    let has_exception := false
    let msgs1 := b.base.messages ++ handoffList b.base.previous_agent agent_type
    let prev1 := some agent_type
    let identity := c.name ++ c.arguments
    if b.executed.contains identity then
      .ok (⟨⟨msgs1 ++ [toolMsg c.id (pyJsonDumps (refine_mcp_response (skipText c.name args)))],
             prev1, b.base.calls, b.base.dispatchLog, b.base.modelLog⟩,
           b.executed⟩, has_exception, .dup)
    else if has_exception then
      .ok (⟨⟨msgs1 ++ [toolMsg c.id (pyJsonDumps (refine_mcp_response excSkipText))],
             prev1, b.base.calls, b.base.dispatchLog, b.base.modelLog⟩,
           b.executed⟩, has_exception, .excSkip)
    else
      let executed1 := b.executed ++ [identity]
      let outcome := execute_openai_compatible_toolcall env c.name args agent_type
      let result :=
        match outcome.err with
        | none => String.join (outcome.msgs.map (fun m => m ++ "\n"))
        | some e => errText e c.name args
      .ok (⟨⟨msgs1 ++ [toolMsg c.id (pyJsonDumps (refine_mcp_response result))],
             prev1, b.base.calls, b.base.dispatchLog ++ [identity], b.base.modelLog⟩,
           executed1⟩, outcome.err.isSome, .exec)

/-- The `for call in completion.choices[0].message.tool_calls` loop, with the
`break` on `has_exception`. On success it returns the state, the final value
of `has_exception`, and the number of calls that received a tool message; on a
propagating exception it returns the exception text, the state at the raise,
and the number of calls answered before it. -/
def processBatch (env : Env) (b : BatchSt) (cs : List ToolCall) :
    Except (String × BatchSt × Nat) (BatchSt × Bool × Nat) :=
  match cs with
  | [] => .ok (b, false, 0)
  | c :: rest =>
    match processCall env b c with
    | .error e => .error (e, b, 0)
    | .ok (b1, hexc, _) =>
      if hexc then .ok (b1, true, 1)
      else
        match processBatch env b1 rest with
        | .error (e, b2, n) => .error (e, b2, n + 1)
        | .ok (b2, h, n) => .ok (b2, h, n + 1)

/-- agent.py lines 215-230: the `except` chain mapping an exception to
`error_message`. -/
def classify : PyExc → String
| .apiConnection s => "Failed to connect to language model: " ++ s
| .rateLimit s => "Rate limit error: " ++ s
| .apiError s => "Language model returned an API Error: " ++ s
| .httpStatus s => "HTTP status error: " ++ s
| .other s => "Unhandled error: " ++ s

/-- `refine_assistant_message` (app/utils.py lines 134-141) applied to the
model_dump of a completion message: content `None` becomes `""`. -/
def refine_assistant_message (t : Turn) : Msg :=
  ⟨"assistant", t.content.getD "", t.tool_calls, none⟩

/-- Result of a run of `prompt`: normal end, classified `error_message`
(the `finally` block then emits an error frame), or fuel exhaustion of the
embedding (the source loop is unbounded). -/
inductive AmOutcome
| ok (st : AmState)
| err (st : AmState) (error_message : String)
| fuelOut (st : AmState)
deriving Repr

def AmOutcome.state : AmOutcome → AmState
| .ok st => st
| .err st _ => st
| .fuelOut st => st

/-- agent.py lines 112-213: the `while ... tool_calls` loop. The model is the
oracle `Nat → Bool → Except PyExc Turn`: turn index and whether the tool
schema with `tool_choice="auto"` was attached (`need_toolcalls`). -/
def amLoop (env : Env) (oracle : Nat → Bool → Except PyExc Turn) :
    Nat → Nat → AmState → Turn → AmOutcome
| 0, _, st, turn => if turn.tool_calls.isEmpty then .ok st else .fuelOut st
| fuel + 1, i, st, turn =>
  if turn.tool_calls.isEmpty then .ok st
  else
    match processBatch env ⟨{ st with calls := st.calls + turn.tool_calls.length }, []⟩
        turn.tool_calls with
    | .error (e, b, _) => .err b.base ("Unhandled error: " ++ e)
    | .ok (b, hexc, _) =>
      match oracle i (decide (b.base.calls < 10) && !hexc) with
      | .error e =>
        .err { b.base with
               modelLog := b.base.modelLog
                 ++ [(decide (b.base.calls < 10) && !hexc, b.base.calls, hexc)] }
          (classify e)
      | .ok t =>
        amLoop env oracle fuel (i + 1)
          { b.base with
            modelLog := b.base.modelLog
              ++ [(decide (b.base.calls < 10) && !hexc, b.base.calls, hexc)],
            messages := b.base.messages ++ [refine_assistant_message t] } t

/-- agent.py lines 66-243 (`prompt`), control skeleton after
`refine_chat_history`: the first model call always attaches the tool schema
(lines 98-105), then the loop runs. -/
def prompt (env : Env) (oracle : Nat → Bool → Except PyExc Turn) (fuel : Nat)
    (initMsgs : List Msg) : AmOutcome :=
  match oracle 0 true with
  | .error e => .err ⟨initMsgs, none, 0, [], [(true, 0, false)]⟩ (classify e)
  | .ok t =>
    amLoop env oracle fuel 1
      ⟨initMsgs ++ [refine_assistant_message t], none, 0, [], [(true, 0, false)]⟩ t

end AmazonAgent

namespace TroubleMaker

/-- apis.py line 122: `n_calls, max_calls = 0, 25`. -/
def max_calls : Nat := 25

/-- Collaborators of `handle_request`: `json.loads` on an arguments string and
`execute_openai_compatible_toolcall` over the MCP toolkit composed with
`refine_mcp_response` (dispatch catches handler errors internally and returns
an error result, so it never raises). -/
structure TtmEnv where
  parse : String → Except String String
  exec : String → String → String

/-- State of one `handle_request` run; `modelLog` is a ghost log with one
record `(tools_attached, n_calls)` per model invocation. -/
structure TtmState where
  messages : List Msg
  n_calls : Nat
  finished : Bool
  modelLog : List (Bool × Nat)
deriving DecidableEq, Repr

/-- Modelled from the spec: `refine_assistant_message` of
`TheTroubleMaker-agent/app/utils.py` is not in the source tree; per spec §4.2
the loop appends one assistant message carrying the raw ToolCallSet (content
may be empty). -/
def assistantOfTurn (t : Turn) : Msg :=
  ⟨"assistant", t.content.getD "", t.tool_calls, none⟩

/-- apis.py lines 157-186: the tool-call loop of one turn. No dedup, no
per-call exception handling: a `json.loads` failure propagates (`.error`
carries the exception text and the state at the raise). Each processed call
appends one tool message and increments `n_calls`. -/
def ttmBatch (env : TtmEnv) : TtmState → List ToolCall → Except (String × TtmState) TtmState
| st, [] => .ok st
| st, c :: rest =>
  match env.parse c.arguments with
  | .error e => .error (e, st)
  | .ok args =>
    let result := env.exec c.name args
    ttmBatch env
      { st with
        messages := st.messages ++ [toolMsg c.id result],
        n_calls := st.n_calls + 1 } rest

/-- Result of a `handle_request` run: the final yielded completion (normal
end), a propagating exception (nothing catches it inside `handle_request`),
or fuel exhaustion of the embedding. -/
inductive TtmOutcome
| ok (st : TtmState)
| err (e : PyExc) (st : TtmState)
| fuelOut (st : TtmState)
deriving Repr

def TtmOutcome.state : TtmOutcome → TtmState
| .ok st => st
| .err _ st => st
| .fuelOut st => st

/-- apis.py lines 126-190: the `while not finished` loop.
`use_tool_calls = lambda: n_calls < max_calls and not finished` decides
whether `tools` and `tool_choice` stay in the payload. A model-call failure
propagates unclassified; a `json.loads` failure in the batch propagates as a
generic exception. -/
def ttmLoop (env : TtmEnv) (oracle : Nat → Bool → Except PyExc Turn) :
    Nat → Nat → TtmState → TtmOutcome
| 0, _, st => if st.finished then .ok st else .fuelOut st
| fuel + 1, i, st =>
  if st.finished then .ok st
  else
    match oracle i (decide (st.n_calls < max_calls) && !st.finished) with
    | .error e =>
      .err e { st with
               modelLog := st.modelLog
                 ++ [(decide (st.n_calls < max_calls) && !st.finished, st.n_calls)] }
    | .ok t =>
      match ttmBatch env
          { st with
            modelLog := st.modelLog
              ++ [(decide (st.n_calls < max_calls) && !st.finished, st.n_calls)],
            messages := st.messages ++ [assistantOfTurn t] } t.tool_calls with
      | .error (e, st3) => .err (.other e) st3
      | .ok st3 => ttmLoop env oracle fuel (i + 1) { st3 with finished := t.tool_calls.isEmpty }

/-- apis.py lines 104-190 (`handle_request`), control skeleton after
`refine_chat_history`. -/
def handle_request (env : TtmEnv) (oracle : Nat → Bool → Except PyExc Turn)
    (fuel : Nat) (initMsgs : List Msg) : TtmOutcome :=
  ttmLoop env oracle fuel 0 ⟨initMsgs, 0, false, []⟩

/-- Events produced by the `handle_request` generator as consumed by
`to_bytes`: a `ChatCompletionStreamResponse` chunk (already serialized by
`model_dump_json`), the final `ChatCompletionResponse` (not a stream chunk,
skipped by the `isinstance` test), or an exception raised out of the
generator. -/
inductive TBEvent
| streamChunk (json : String)
| completionChunk
| raiseEv (e : PyExc)
deriving DecidableEq, Repr

/-- apis.py lines 201-216 (`to_bytes`): no `try` anywhere — an exception from
the generator propagates (second component) and ends the byte stream without
the `[DONE]` frame; a normally ending generator is followed by `[DONE]`. -/
def to_bytes : List TBEvent → List String × Option PyExc
| [] => (["data: [DONE]\n\n"], none)
| .raiseEv e :: _ => ([], some e)
| .streamChunk j :: rest =>
  let r := to_bytes rest
  (("data: " ++ j ++ "\n\n") :: r.1, r.2)
| .completionChunk :: rest => to_bytes rest

def firstRaiseTB : List TBEvent → Option PyExc
| [] => none
| .raiseEv e :: _ => some e
| _ :: rest => firstRaiseTB rest

end TroubleMaker

namespace AmazonServer

/-- Events produced by the `prompt` generator as consumed by `stream_reader`
(server.py lines 252-300): a text chunk, an already encoded byte chunk, a
`None` (skipped), or an exception raised out of the generator. -/
inductive SREvent
| strChunk (s : String)
| bytesChunk (b : String)
| noneChunk
| raiseEv (e : PyExc)
deriving DecidableEq, Repr

/-- server.py lines 282-294: the `except` chain of `stream_reader` (note:
no `httpx.HTTPStatusError` case here, it falls into the generic handler). -/
def classify_sr : PyExc → String
| .apiConnection s => "Failed to connect to language model: " ++ s
| .rateLimit s => "Rate limit error: " ++ s
| .apiError s => "Language model returned an API Error: " ++ s
| .httpStatus s => "Unhandled error: " ++ s
| .other s => "Unhandled error: " ++ s

/-- Modelled from the spec: `app/models/oai_compatible_models.py` is not in
the source tree. Per spec §6 a stream frame is `{id, object:
"chat.completion.chunk", created, model, choices:[{index, delta:{content?,
role?}}]}`; this renders the `ChatCompletionStreamResponse` built at
server.py lines 262-276. -/
def chunkJson (uuid : String) (created : Nat) (content role : String) : String :=
  "\x7b\"id\": " ++ pyJsonDumps uuid
    ++ ", \"object\": \"chat.completion.chunk\", \"created\": " ++ toString created
    ++ ", \"model\": \"unspecified\", \"choices\": [\x7b\"index\": 0, \"delta\": \x7b\"content\": "
    ++ pyJsonDumps content ++ ", \"role\": " ++ pyJsonDumps role ++ "\x7d\x7d]\x7d"

/-- Modelled from the spec: `PromptErrorResponse` (not in the source tree)
carries `{message, details?}`; `stream_reader` constructs it from the message
alone. -/
def promptErrorJson (message : String) : String :=
  "\x7b\"message\": " ++ pyJsonDumps message ++ ", \"details\": \"\"\x7d"

def dataFrame (j : String) : String := "data: " ++ j ++ "\n\n"

def doneFrame : String := "data: [DONE]\n\n"

/-- server.py lines 252-300 (`stream_reader`): consume the generator; on an
exception record `error_message`; in `finally` emit the error frame when an
error occurred and then always the `[DONE]` frame. -/
def stream_reader (uuid : String) (created : Nat) : List SREvent → List String
| [] => [doneFrame]
| .raiseEv e :: _ => [dataFrame (promptErrorJson (classify_sr e)), doneFrame]
| .strChunk s :: rest => dataFrame (chunkJson uuid created s "assistant") :: stream_reader uuid created rest
| .bytesChunk b :: rest => b :: stream_reader uuid created rest
| .noneChunk :: rest => stream_reader uuid created rest

def firstRaiseSR : List SREvent → Option PyExc
| [] => none
| .raiseEv e :: _ => some e
| _ :: rest => firstRaiseSR rest

end AmazonServer

namespace PromptBased

/-- utils.py lines 96-99: `name.replace("-", "_").replace(" ", "_").lower()`;
with single-character patterns the two replacements and the lowering act
character-wise. -/
def sanitize_tool_name (name : String) : String :=
  String.mk (name.toList.map (fun c =>
    if c == '-' then '_' else if c == ' ' then '_' else c.toLower))

/-- utils.py lines 101-102. -/
def compare_toolname (openai_toolname mcp_toolname : String) : Bool :=
  sanitize_tool_name mcp_toolname == openai_toolname

/-- MCP content items returned by `_mcp_call_tool`; only `TextContent` and
`EmbeddedResource` survive the final filter. -/
inductive MCPContent
| text (s : String)
| embedded (s : String)
| otherContent (s : String)
deriving DecidableEq, Repr

/-- The MCP toolkit collaborator: the registered tool names and the call
function, which may raise. -/
structure MCPEnv where
  tools : List String
  call : String → String → Except String (List MCPContent)

/-- Result of the dispatcher: a `CallToolResult` with `isError=True` and the
given text, or the filtered content list. -/
inductive PBOut
| errResult (text : String)
| contents (cs : List MCPContent)
deriving DecidableEq, Repr

/-- utils.py lines 104-141 (`execute_openai_compatible_toolcall`): resolve by
sanitized-name comparison; an empty candidate list returns a "not found"
error result instead of raising; a raising call is caught and returned as an
error result. -/
def execute_openai_compatible_toolcall (env : MCPEnv) (toolname : String)
    (arguments : String) : PBOut :=
  let candidate := env.tools.filter (fun t => compare_toolname toolname t)
  match candidate with
  | [] => .errResult ("Tool " ++ toolname ++ " not found")
  | t :: _ =>
    match env.call t arguments with
    | .error e => .errResult ("Error executing tool " ++ t ++ ": " ++ e)
    | .ok res =>
      .contents (res.filter (fun c =>
        match c with
        | .text _ => true
        | .embedded _ => true
        | .otherContent _ => false))

end PromptBased

/-! ## Chat-history refiners -/

/-- A `file` sub-dict of a typed content part. -/
structure FileDict where
  file_data : Option String
  filename : Option String
deriving DecidableEq, Repr

/-- One element of a list-valued `content`: a dict-like item (with optional
`type`, `text` and `file` keys), or a bare character (list-content of a
system message is extended character-wise by `content += str`). -/
inductive ContentPart
| item (type : Option String) (text : Option String) (file : Option FileDict)
| char (c : Char)
deriving DecidableEq, Repr

/-- `content` of an incoming message: plain text or a list of typed parts. -/
inductive InContent
| str (s : String)
| parts (ps : List ContentPart)
deriving DecidableEq, Repr

/-- An incoming chat message (dict with optional `role` and `content` keys). -/
structure InMsg where
  role : Option String
  content : Option InContent
deriving DecidableEq, Repr

/-- `message.get('role', 'undefined') == 'system'`. -/
def isSysMsg (m : InMsg) : Bool := m.role.getD "undefined" == "system"

/-- `message['content'] += f'\n{system_prompt}'`: string content is
concatenated; a missing key raises `KeyError`; list content is extended
element-wise with the characters of the appended string (Python
`list += str`). -/
def sysAppend (content : Option InContent) (system_prompt : String) :
    Except String InContent :=
  match content with
  | none => .error "KeyError: content"
  | some (.str s) => .ok (.str (s ++ "\n" ++ system_prompt))
  | some (.parts ps) => .ok (.parts (ps ++ ("\n" ++ system_prompt).toList.map ContentPart.char))

namespace AmazonAgent

/-- amazon-agent app/utils.py lines 90-103: fold one content item into the
accumulated `(text_input, attachments)`. A non-dict item raises
(`item.get` on it); `preserve` is `preserve_upload_file`. -/
def flattenItem (preserve : String → String → Option String)
    (acc : String × List String) (p : ContentPart) : Except String (String × List String) :=
  match p with
  | .char _ => .error "AttributeError: get"
  | .item ty tx fl =>
    if ty.getD "undefined" == "text" then
      .ok (acc.1 ++ tx.getD "", acc.2)
    else if ty.getD "undefined" == "file" then
      let fd := fl.getD ⟨none, none⟩
      if fd.file_data.isSome && fd.filename.isSome then
        match preserve (fd.file_data.getD "") (fd.filename.getD "") with
        | some path => .ok (acc.1, acc.2 ++ [path])
        | none => .ok acc
      else .ok acc
    else .ok acc

/-- The `for item in content` loop folding `flattenItem` over the parts. -/
def flattenItems (preserve : String → String → Option String) :
    String × List String → List ContentPart → Except String (String × List String)
| acc, [] => .ok acc
| acc, p :: rest =>
  match flattenItem preserve acc p with
  | .error e => .error e
  | .ok acc2 => flattenItems preserve acc2 rest

/-- amazon-agent app/utils.py lines 105-114: append the attachment list to the
flattened text and rebuild the message as a plain-text user message. -/
def flattenUserContent (preserve : String → String → Option String)
    (ps : List ContentPart) : Except String InMsg :=
  match flattenItems preserve ("", []) ps with
  | .error e => .error e
  | .ok r =>
    .ok ⟨some "user", some (.str
      (if r.2.isEmpty then r.1
       else r.1 ++ "\nAttachments:\n" ++ String.join (r.2.map (fun a => "- " ++ a ++ "\n"))))⟩

/-- amazon-agent app/utils.py lines 73-117: the per-message body of the
`for message in messages` loop. -/
def refineMsg (preserve : String → String → Option String) (system_prompt : String)
    (m : InMsg) : Except String InMsg :=
  if isSysMsg m then
    match sysAppend m.content system_prompt with
    | .error e => .error e
    | .ok c => .ok ⟨m.role, some c⟩
  else if m.role.getD "undefined" == "user" then
    match m.content with
    | some (.parts ps) => flattenUserContent preserve ps
    | _ => .ok m
  else .ok m

/-- The `for message in messages` loop of `refine_chat_history`, building
`refined_messages`. -/
def refineList (preserve : String → String → Option String) (system_prompt : String) :
    List InMsg → Except String (List InMsg)
| [] => .ok []
| m :: rest =>
  match refineMsg preserve system_prompt m with
  | .error e => .error e
  | .ok r =>
    match refineList preserve system_prompt rest with
    | .error e => .error e
    | .ok rs => .ok (r :: rs)

/-- amazon-agent app/utils.py lines 69-131 (`refine_chat_history`):
`has_system_prompt` ends up true exactly when some message takes the system
branch; when it is false and the prompt is non-empty a fresh system message
is inserted at position 0. (The final `isinstance(refined_messages[-1], str)`
fix-up at lines 125-129 is a no-op for dict-shaped messages and has no
counterpart here.) -/
def refine_chat_history (preserve : String → String → Option String)
    (messages : List InMsg) (system_prompt : String) : Except String (List InMsg) :=
  match refineList preserve system_prompt messages with
  | .error e => .error e
  | .ok refined =>
    if !(messages.any isSysMsg) && system_prompt != "" then
      .ok (⟨some "system", some (.str system_prompt)⟩ :: refined)
    else
      .ok refined

end AmazonAgent

namespace PromptBased

/-- Case-insensitive prefix test on character lists. -/
def isPrefixCI : List Char → List Char → Bool
| [], _ => true
| _ :: _, [] => false
| p :: ps, c :: cs => (p.toLower == c.toLower) && isPrefixCI ps cs

/-- Index of the first case-insensitive occurrence of `pat` in `s`. -/
def findCI (pat : List Char) : List Char → Option Nat
| [] => if pat.isEmpty then some 0 else none
| c :: cs =>
  if isPrefixCI pat (c :: cs) then some 0
  else (findCI pat cs).map (· + 1)

/-- One `re.sub` pass for `<think>.*?</think>` (DOTALL, IGNORECASE,
non-greedy): remove the leftmost open tag up to the nearest close tag and
continue after it; if the leftmost open tag has no close tag after it, no
later one has either and the string is returned unchanged. Fuel bounds the
recursion; each removal consumes at least the two tags, so `s.length` steps
always suffice. -/
def stripThinkAux : Nat → List Char → List Char
| 0, s => s
| fuel + 1, s =>
  match findCI "<think>".toList s with
  | none => s
  | some i =>
    let pre := s.take i
    let rest := s.drop (i + 7)
    match findCI "</think>".toList rest with
    | none => s
    | some j => pre ++ stripThinkAux fuel (rest.drop (j + 8))

/-- Python `str.isspace` characters handled by `lstrip`/`strip` (ASCII
whitespace; the embedded strings contain no further Unicode whitespace). -/
def isPySpace (c : Char) : Bool :=
  c == ' ' || c == '\t' || c == '\n' || c == '\r' || c == '\x0b' || c == '\x0c'

/-- utils.py lines 167-169 (`strip_thinking_content`): remove every
`<think>.*?</think>` match, then `lstrip()`. -/
def strip_thinking_content (content : String) : String :=
  String.mk ((stripThinkAux content.length content.toList).dropWhile isPySpace)

/-- Word character for the `\b` boundary in `<details\b`. -/
def isWordChar (c : Char) : Bool :=
  c.isAlpha || c.isDigit || c == '_'

/-- Try to match `<details\b[^>]*>.*?</details>` at the head of `s`; on
success return the remainder after the match. -/
def matchDetailsAt (s : List Char) : Option (List Char) :=
  if isPrefixCI "<details".toList s then
    let after := s.drop 8
    match after.head? with
    | none => none
    | some c =>
      if isWordChar c then none
      else
        match after.findIdx? (fun d => d == '>') with
        | none => none
        | some k =>
          let body := after.drop (k + 1)
          match findCI "</details>".toList body with
          | none => none
          | some m => some (body.drop (m + 10))
  else none

/-- One `re.sub` pass for `<details\b[^>]*>.*?</details>` (DOTALL,
IGNORECASE, non-greedy), scanning left to right; fuel bounds the recursion
and `s.length` steps always suffice. -/
def stripDetailsAux : Nat → List Char → List Char
| 0, s => s
| _ + 1, [] => []
| fuel + 1, c :: cs =>
  match matchDetailsAt (c :: cs) with
  | some rest => stripDetailsAux fuel rest
  | none => c :: stripDetailsAux fuel cs

/-- utils.py lines 162-164 (`strip_toolcall_noti`): remove every
`<details ...>...</details>` match, then `strip()`. -/
def strip_toolcall_noti (content : String) : String :=
  String.mk
    (((stripDetailsAux content.length content.toList).dropWhile isPySpace).reverse.dropWhile isPySpace).reverse

/-- utils.py line 176: the time note appended to the system prompt;
`now` stands for the formatted current UTC time. -/
def timeNote (now : String) : String :=
  "\nNote: Current time is " ++ now
    ++ " UTC (only use this information when being asked or for searching purposes)"

/-- utils.py lines 196-201: flatten one content item of a list-valued user
message; the `file` branch is `pass`, so attachments stay empty. -/
def flattenItemPB (acc : String) (p : ContentPart) : Except String String :=
  match p with
  | .char _ => .error "AttributeError: get"
  | .item ty tx _ =>
    if ty.getD "undefined" == "text" then .ok (acc ++ tx.getD "")
    else .ok acc

/-- The `for item in content` loop of the prompt-based user branch. -/
def flattenItemsPB : String → List ContentPart → Except String String
| acc, [] => .ok acc
| acc, p :: rest =>
  match flattenItemPB acc p with
  | .error e => .error e
  | .ok acc2 => flattenItemsPB acc2 rest

/-- utils.py lines 203-212: rebuild a list-content user message as plain
text (no attachments in this agent). -/
def flattenUserContentPB (ps : List ContentPart) : Except String InMsg :=
  match flattenItemsPB "" ps with
  | .error e => .error e
  | .ok text_input => .ok ⟨some "user", some (.str text_input)⟩

/-- utils.py lines 188-220: the per-message body of the loop. Non-system,
non-user-list messages are rebuilt with role defaulted to `assistant` and
content stripped of thinking and tool-call-notification markup; a list
content reaching `re.sub` raises `TypeError`. -/
def refineMsgPB (system_prompt : String) (m : InMsg) : Except String InMsg :=
  if isSysMsg m then
    match sysAppend m.content system_prompt with
    | .error e => .error e
    | .ok c => .ok ⟨m.role, some c⟩
  else if m.role.getD "undefined" == "user" then
    match m.content with
    | some (.parts ps) => flattenUserContentPB ps
    | some (.str s) =>
      .ok ⟨some (m.role.getD "assistant"),
           some (.str (strip_toolcall_noti (strip_thinking_content s)))⟩
    | none =>
      .ok ⟨some (m.role.getD "assistant"),
           some (.str (strip_toolcall_noti (strip_thinking_content "")))⟩
  else
    match m.content with
    | some (.parts _) => .error "TypeError: expected string or bytes-like object"
    | some (.str s) =>
      .ok ⟨some (m.role.getD "assistant"),
           some (.str (strip_toolcall_noti (strip_thinking_content s)))⟩
    | none =>
      .ok ⟨some (m.role.getD "assistant"),
           some (.str (strip_toolcall_noti (strip_thinking_content "")))⟩

/-- The `for message in messages` loop of the prompt-based
`refine_chat_history`. -/
def refineListPB (system_prompt : String) : List InMsg → Except String (List InMsg)
| [] => .ok []
| m :: rest =>
  match refineMsgPB system_prompt m with
  | .error e => .error e
  | .ok r =>
    match refineListPB system_prompt rest with
    | .error e => .error e
    | .ok rs => .ok (r :: rs)

/-- prompt-based-agent app/utils.py lines 172-234 (`refine_chat_history`):
the time note is appended to the system prompt up front, then the shape is
the amazon variant's. (The `isinstance(refined_messages[-1], str)` fix-up is
again a no-op for dict-shaped messages.) -/
def refine_chat_history (messages : List InMsg) (system_prompt : String)
    (now : String) : Except String (List InMsg) :=
  match refineListPB (system_prompt ++ timeNote now) messages with
  | .error e => .error e
  | .ok refined =>
    if !(messages.any isSysMsg) && (system_prompt ++ timeNote now) != "" then
      .ok (⟨some "system", some (.str (system_prompt ++ timeNote now))⟩ :: refined)
    else
      .ok refined

end PromptBased

/-! ## Concrete environments and oracles used by the closed theorems -/

/-- Handlers succeed, yielding one message; `json.loads` succeeds. -/
def okEnvA : AmazonAgent.Env := ⟨fun s => .ok s, fun _ _ => ⟨["done"], none⟩⟩

/-- Every handler raises `boom`; `json.loads` succeeds. -/
def raiseEnvA : AmazonAgent.Env := ⟨fun s => .ok s, fun _ _ => ⟨[], some "boom"⟩⟩

/-- `json.loads` raises on every arguments string. -/
def failParseEnvA : AmazonAgent.Env :=
  ⟨fun _ => .error "Expecting value: line 1 column 1 (char 0)", fun _ _ => ⟨["done"], none⟩⟩

/-- A model that plays the given turns in order, then stops emitting calls. -/
def turnsOracle (ts : List Turn) : Nat → Bool → Except PyExc Turn :=
  fun i _ => .ok ((ts.drop i).headD ⟨none, []⟩)

def okEnvT : TroubleMaker.TtmEnv := ⟨fun s => .ok s, fun _ _ => "result"⟩

/-- `n` distinct tool calls. -/
def mkCalls (n : Nat) : List ToolCall :=
  (List.range n).map (fun i => ⟨toString i, "tool" ++ toString i, "\x7b\x7d"⟩)

def AmazonAgent.AmOutcome.errMsg : AmazonAgent.AmOutcome → Option String
| .err _ m => some m
| _ => none

/-! ## Helper lemmas -/

theorem toolIds_append (l1 l2 : List Msg) :
    toolIds (l1 ++ l2) = toolIds l1 ++ toolIds l2 := by
  simp [toolIds, List.filterMap_append]

theorem toolIds_handoffList (p : Option String) (a : String) :
    toolIds (AmazonAgent.handoffList p a) = [] := by
  unfold AmazonAgent.handoffList
  split
  all_goals repeat' split
  all_goals rfl

/-- Effects of one iteration of the call loop, by branch. -/
theorem processCall_ok_spec (env : AmazonAgent.Env) (b : AmazonAgent.BatchSt)
    (c : ToolCall) (b1 : AmazonAgent.BatchSt) (h : Bool) (br : AmazonAgent.CallBranch)
    (hrun : AmazonAgent.processCall env b c = .ok (b1, h, br)) :
    (∃ last, b1.base.messages
        = b.base.messages
          ++ AmazonAgent.handoffList b.base.previous_agent (AmazonAgent.get_agent_for_tool c.name)
          ++ [last]
        ∧ last.role = "tool" ∧ last.tool_call_id = some c.id)
    ∧ b1.base.previous_agent = some (AmazonAgent.get_agent_for_tool c.name)
    ∧ b1.base.calls = b.base.calls
    ∧ b1.base.modelLog = b.base.modelLog
    ∧ ((b1.executed = b.executed ∧ b1.base.dispatchLog = b.base.dispatchLog
        ∧ br = .dup ∧ h = false
        ∧ b.executed.contains (c.name ++ c.arguments) = true)
       ∨ (b1.executed = b.executed ++ [c.name ++ c.arguments]
          ∧ b1.base.dispatchLog = b.base.dispatchLog ++ [c.name ++ c.arguments]
          ∧ br = .exec
          ∧ b.executed.contains (c.name ++ c.arguments) = false)) := by
  unfold AmazonAgent.processCall at hrun
  cases hp : env.parse c.arguments with
  | error e => rw [hp] at hrun; cases hrun
  | ok args =>
    rw [hp] at hrun
    simp only [] at hrun
    split at hrun
    · -- duplicate branch
      rename_i hc
      cases hrun
      refine ⟨⟨_, rfl, rfl, rfl⟩, rfl, rfl, rfl, .inl ⟨rfl, rfl, rfl, rfl, hc⟩⟩
    · -- dispatch branch (the `elif has_exception` arm is `if false`)
      rename_i hc
      simp only [Bool.false_eq_true, if_false] at hrun
      cases hrun
      refine ⟨⟨_, rfl, rfl, rfl⟩, rfl, rfl, rfl,
        .inr ⟨rfl, rfl, rfl, by simpa using hc⟩⟩

theorem toolIds_single_tool (last : Msg) (i : String)
    (hrole : last.role = "tool") (hid : last.tool_call_id = some i) :
    toolIds [last] = [i] := by
  simp [toolIds, hrole, hid]

/-- The tool messages appended by a batch that runs to completion or stops at
a `break` answer exactly the first `n` calls, in order. -/
theorem processBatch_ok_toolIds (env : AmazonAgent.Env) :
    ∀ (cs : List ToolCall) (b b1 : AmazonAgent.BatchSt) (h : Bool) (n : Nat),
      AmazonAgent.processBatch env b cs = .ok (b1, h, n) →
      (∃ Δ, b1.base.messages = b.base.messages ++ Δ
          ∧ toolIds Δ = (cs.take n).map ToolCall.id)
      ∧ n ≤ cs.length ∧ (h = false → n = cs.length) := by
  intro cs
  induction cs with
  | nil =>
    intro b b1 h n hb
    unfold AmazonAgent.processBatch at hb
    cases hb
    exact ⟨⟨[], by simp, rfl⟩, Nat.le_refl 0, fun _ => rfl⟩
  | cons c rest ih =>
    intro b b1 h n hb
    unfold AmazonAgent.processBatch at hb
    cases hc : AmazonAgent.processCall env b c with
    | error e => rw [hc] at hb; cases hb
    | ok r =>
      obtain ⟨b', hexc, br⟩ := r
      rw [hc] at hb
      obtain ⟨⟨last, hmsg, hrole, hid⟩, -, -, -, -⟩ :=
        processCall_ok_spec env b c b' hexc br hc
      by_cases hx : hexc = true
      · subst hx
        simp only [if_true] at hb
        cases hb
        refine ⟨⟨AmazonAgent.handoffList b.base.previous_agent
            (AmazonAgent.get_agent_for_tool c.name) ++ [last], ?_, ?_⟩,
          Nat.succ_le_succ (Nat.zero_le _), fun hfalse => by cases hfalse⟩
        · rw [hmsg, List.append_assoc]
        · rw [toolIds_append, toolIds_handoffList, toolIds_single_tool last c.id hrole hid]
          rfl
      · rw [Bool.not_eq_true] at hx
        subst hx
        simp only [Bool.false_eq_true, if_false] at hb
        cases hb2 : AmazonAgent.processBatch env b' rest with
        | error e => rw [hb2] at hb; cases hb
        | ok r2 =>
          obtain ⟨b2, h2, n2⟩ := r2
          rw [hb2] at hb
          cases hb
          obtain ⟨⟨Δ2, hmsg2, hti2⟩, hle2, himp2⟩ := ih b' b1 h n2 hb2
          refine ⟨⟨AmazonAgent.handoffList b.base.previous_agent
              (AmazonAgent.get_agent_for_tool c.name) ++ [last] ++ Δ2, ?_, ?_⟩,
            Nat.succ_le_succ hle2, fun hh => by rw [himp2 hh]; rfl⟩
          · rw [hmsg2, hmsg]
            simp [List.append_assoc]
          · rw [toolIds_append, toolIds_append, toolIds_handoffList,
              toolIds_single_tool last c.id hrole hid, List.take_succ_cons, List.map_cons, hti2]
            rfl

/-- A batch aborted by a propagating exception has answered exactly the first
`n` calls, and at least one call (the raising one) is left unanswered. -/
theorem processBatch_error_toolIds (env : AmazonAgent.Env) :
    ∀ (cs : List ToolCall) (b b1 : AmazonAgent.BatchSt) (e : String) (n : Nat),
      AmazonAgent.processBatch env b cs = .error (e, b1, n) →
      (∃ Δ, b1.base.messages = b.base.messages ++ Δ
          ∧ toolIds Δ = (cs.take n).map ToolCall.id)
      ∧ n < cs.length := by
  intro cs
  induction cs with
  | nil =>
    intro b b1 e n hb
    unfold AmazonAgent.processBatch at hb
    cases hb
  | cons c rest ih =>
    intro b b1 e n hb
    unfold AmazonAgent.processBatch at hb
    cases hc : AmazonAgent.processCall env b c with
    | error e' =>
      rw [hc] at hb
      cases hb
      exact ⟨⟨[], by simp, rfl⟩, Nat.succ_le_succ (Nat.zero_le _)⟩
    | ok r =>
      obtain ⟨b', hexc, br⟩ := r
      rw [hc] at hb
      obtain ⟨⟨last, hmsg, hrole, hid⟩, -, -, -, -⟩ :=
        processCall_ok_spec env b c b' hexc br hc
      by_cases hx : hexc = true
      · subst hx; simp only [if_true] at hb; cases hb
      · rw [Bool.not_eq_true] at hx
        subst hx
        simp only [Bool.false_eq_true, if_false] at hb
        cases hb2 : AmazonAgent.processBatch env b' rest with
        | ok r2 => rw [hb2] at hb; cases hb
        | error r2 =>
          obtain ⟨e2, b2, n2⟩ := r2
          rw [hb2] at hb
          cases hb
          obtain ⟨⟨Δ2, hmsg2, hti2⟩, hlt2⟩ := ih b' b1 e n2 hb2
          refine ⟨⟨AmazonAgent.handoffList b.base.previous_agent
              (AmazonAgent.get_agent_for_tool c.name) ++ [last] ++ Δ2, ?_, ?_⟩,
            Nat.succ_lt_succ hlt2⟩
          · rw [hmsg2, hmsg]
            simp [List.append_assoc]
          · rw [toolIds_append, toolIds_append, toolIds_handoffList,
              toolIds_single_tool last c.id hrole hid, List.take_succ_cons, List.map_cons, hti2]
            rfl

/-- Within one batch the `executed` set grows by exactly the identity keys
dispatched in that batch, and stays duplicate-free: at most one dispatch per
identity key. -/
theorem processBatch_dispatch (env : AmazonAgent.Env) :
    ∀ (cs : List ToolCall) (b b1 : AmazonAgent.BatchSt) (h : Bool) (n : Nat),
      AmazonAgent.processBatch env b cs = .ok (b1, h, n) →
      ∃ new, b1.executed = b.executed ++ new
        ∧ b1.base.dispatchLog = b.base.dispatchLog ++ new
        ∧ (b.executed.Nodup → b1.executed.Nodup) := by
  intro cs
  induction cs with
  | nil =>
    intro b b1 h n hb
    unfold AmazonAgent.processBatch at hb
    cases hb
    exact ⟨[], by simp, by simp, fun hnd => hnd⟩
  | cons c rest ih =>
    intro b b1 h n hb
    unfold AmazonAgent.processBatch at hb
    cases hc : AmazonAgent.processCall env b c with
    | error e => rw [hc] at hb; cases hb
    | ok r =>
      obtain ⟨b', hexc, br⟩ := r
      rw [hc] at hb
      obtain ⟨-, -, -, -, hdisj⟩ := processCall_ok_spec env b c b' hexc br hc
      have step : ∃ new1, b'.executed = b.executed ++ new1
          ∧ b'.base.dispatchLog = b.base.dispatchLog ++ new1
          ∧ (b.executed.Nodup → b'.executed.Nodup) := by
        rcases hdisj with ⟨he, hd, -, -, -⟩ | ⟨he, hd, -, hcf⟩
        · exact ⟨[], by simp [he], by simp [hd], fun hnd => he ▸ hnd⟩
        · refine ⟨[c.name ++ c.arguments], he, hd, fun hnd => ?_⟩
          rw [he]
          have hmem : (c.name ++ c.arguments) ∉ b.executed := by simpa using hcf
          simp [List.nodup_append, hnd, hmem]
      by_cases hx : hexc = true
      · subst hx
        simp only [if_true] at hb
        cases hb
        exact step
      · rw [Bool.not_eq_true] at hx
        subst hx
        simp only [Bool.false_eq_true, if_false] at hb
        cases hb2 : AmazonAgent.processBatch env b' rest with
        | error e => rw [hb2] at hb; cases hb
        | ok r2 =>
          obtain ⟨b2, h2, n2⟩ := r2
          rw [hb2] at hb
          cases hb
          obtain ⟨new1, he1, hd1, hnd1⟩ := step
          obtain ⟨new2, he2, hd2, hnd2⟩ := ih b' b1 h n2 hb2
          refine ⟨new1 ++ new2, ?_, ?_, fun hnd => hnd2 (hnd1 hnd)⟩
          · rw [he2, he1, List.append_assoc]
          · rw [hd2, hd1, List.append_assoc]

/-- A duplicate identity key within one batch is answered by the
"previously executed, skipping" notice, without a dispatch. -/
theorem processCall_dup_notice (env : AmazonAgent.Env) (b : AmazonAgent.BatchSt)
    (c : ToolCall) (args : String)
    (hp : env.parse c.arguments = .ok args)
    (hdup : b.executed.contains (c.name ++ c.arguments) = true) :
    AmazonAgent.processCall env b c = .ok
      (⟨⟨b.base.messages
           ++ AmazonAgent.handoffList b.base.previous_agent (AmazonAgent.get_agent_for_tool c.name)
           ++ [toolMsg c.id (pyJsonDumps (AmazonAgent.refine_mcp_response
                (AmazonAgent.skipText c.name args)))],
         some (AmazonAgent.get_agent_for_tool c.name), b.base.calls,
         b.base.dispatchLog, b.base.modelLog⟩,
        b.executed⟩, false, .dup) := by
  unfold AmazonAgent.processCall
  rw [hp]
  simp only [hdup, if_true]

/-- One batch touches neither the `calls` counter nor the model-call log. -/
theorem processBatch_fields (env : AmazonAgent.Env) :
    ∀ (cs : List ToolCall) (b : AmazonAgent.BatchSt),
      (∀ b1 h n, AmazonAgent.processBatch env b cs = .ok (b1, h, n) →
        b1.base.calls = b.base.calls ∧ b1.base.modelLog = b.base.modelLog)
      ∧ (∀ e b1 n, AmazonAgent.processBatch env b cs = .error (e, b1, n) →
        b1.base.calls = b.base.calls ∧ b1.base.modelLog = b.base.modelLog) := by
  intro cs
  induction cs with
  | nil =>
    intro b
    constructor
    · intro b1 h n hb
      unfold AmazonAgent.processBatch at hb
      cases hb
      exact ⟨rfl, rfl⟩
    · intro e b1 n hb
      unfold AmazonAgent.processBatch at hb
      cases hb
  | cons c rest ih =>
    intro b
    constructor
    · intro b1 h n hb
      unfold AmazonAgent.processBatch at hb
      cases hc : AmazonAgent.processCall env b c with
      | error e => rw [hc] at hb; cases hb
      | ok r =>
        obtain ⟨b', hexc, br⟩ := r
        rw [hc] at hb
        obtain ⟨-, -, hcalls, hlog, -⟩ := processCall_ok_spec env b c b' hexc br hc
        by_cases hx : hexc = true
        · subst hx
          simp only [if_true] at hb
          cases hb
          exact ⟨hcalls, hlog⟩
        · rw [Bool.not_eq_true] at hx
          subst hx
          simp only [Bool.false_eq_true, if_false] at hb
          cases hb2 : AmazonAgent.processBatch env b' rest with
          | error e => rw [hb2] at hb; cases hb
          | ok r2 =>
            obtain ⟨b2, h2, n2⟩ := r2
            rw [hb2] at hb
            cases hb
            obtain ⟨hc2, hl2⟩ := (ih b').1 b1 h n2 hb2
            exact ⟨hc2.trans hcalls, hl2.trans hlog⟩
    · intro e b1 n hb
      unfold AmazonAgent.processBatch at hb
      cases hc : AmazonAgent.processCall env b c with
      | error e' =>
        rw [hc] at hb
        cases hb
        exact ⟨rfl, rfl⟩
      | ok r =>
        obtain ⟨b', hexc, br⟩ := r
        rw [hc] at hb
        obtain ⟨-, -, hcalls, hlog, -⟩ := processCall_ok_spec env b c b' hexc br hc
        by_cases hx : hexc = true
        · subst hx; simp only [if_true] at hb; cases hb
        · rw [Bool.not_eq_true] at hx
          subst hx
          simp only [Bool.false_eq_true, if_false] at hb
          cases hb2 : AmazonAgent.processBatch env b' rest with
          | ok r2 => rw [hb2] at hb; cases hb
          | error r2 =>
            obtain ⟨e2, b2, n2⟩ := r2
            rw [hb2] at hb
            cases hb
            obtain ⟨hc2, hl2⟩ := (ih b').2 e b1 n2 hb2
            exact ⟨hc2.trans hcalls, hl2.trans hlog⟩



theorem ttmBatch_spec (env : TroubleMaker.TtmEnv) :
    ∀ (cs : List ToolCall) (st : TroubleMaker.TtmState),
      (∀ st1, TroubleMaker.ttmBatch env st cs = .ok st1 →
        st1.n_calls = st.n_calls + cs.length ∧ st1.modelLog = st.modelLog)
      ∧ (∀ e st1, TroubleMaker.ttmBatch env st cs = .error (e, st1) →
        st1.n_calls ≤ st.n_calls + cs.length ∧ st1.modelLog = st.modelLog) := by
  intro cs
  induction cs with
  | nil =>
    intro st
    constructor
    · intro st1 hb
      unfold TroubleMaker.ttmBatch at hb
      cases hb
      exact ⟨rfl, rfl⟩
    · intro e st1 hb
      unfold TroubleMaker.ttmBatch at hb
      cases hb
  | cons c rest ih =>
    intro st
    constructor
    · intro st1 hb
      unfold TroubleMaker.ttmBatch at hb
      cases hp : env.parse c.arguments with
      | error e => rw [hp] at hb; cases hb
      | ok args =>
        rw [hp] at hb
        obtain ⟨hn, hl⟩ := (ih _).1 st1 hb
        constructor
        · rw [hn]
          simp [Nat.add_comm, Nat.add_assoc, Nat.add_left_comm]
        · exact hl
    · intro e st1 hb
      unfold TroubleMaker.ttmBatch at hb
      cases hp : env.parse c.arguments with
      | error e2 =>
        rw [hp] at hb
        cases hb
        exact ⟨Nat.le_add_right _ _, rfl⟩
      | ok args =>
        rw [hp] at hb
        obtain ⟨hn, hl⟩ := (ih _).2 e st1 hb
        constructor
        · refine hn.trans ?_
          simp [Nat.add_comm, Nat.add_assoc, Nat.add_left_comm]
        · exact hl

theorem amLoop_modelLog_inv (env : AmazonAgent.Env)
    (oracle : Nat → Bool → Except PyExc Turn) (P : Bool × Nat × Bool → Prop)
    (hP : ∀ calls hexc, P (decide (calls < 10) && !hexc, calls, hexc)) :
    ∀ (fuel i : Nat) (st : AmazonAgent.AmState) (turn : Turn),
      (∀ x ∈ st.modelLog, P x) →
      ∀ x ∈ ((AmazonAgent.amLoop env oracle fuel i st turn).state).modelLog, P x := by
  intro fuel
  induction fuel with
  | zero =>
    intro i st turn hinv
    unfold AmazonAgent.amLoop
    split <;> exact hinv
  | succ fuel ih =>
    intro i st turn hinv
    unfold AmazonAgent.amLoop
    split
    · exact hinv
    · split
      · rename_i e b n heq
        show ∀ x ∈ b.base.modelLog, P x
        obtain ⟨-, hlog⟩ := (processBatch_fields env turn.tool_calls _).2 e b n heq
        have hlog' : b.base.modelLog = st.modelLog := by simpa using hlog
        intro x hx
        exact hinv x (hlog' ▸ hx)
      · rename_i b hexc n heq
        obtain ⟨-, hlog⟩ := (processBatch_fields env turn.tool_calls _).1 b hexc n heq
        have hlog' : b.base.modelLog = st.modelLog := by simpa using hlog
        have hinv2 : ∀ x ∈ b.base.modelLog
            ++ [(decide (b.base.calls < 10) && !hexc, b.base.calls, hexc)], P x := by
          intro x hx
          rcases List.mem_append.mp hx with hx1 | hx2
          · exact hinv x (hlog' ▸ hx1)
          · rw [List.mem_singleton] at hx2
            subst hx2
            exact hP _ _
        split
        · rename_i e ho
          show ∀ x ∈ b.base.modelLog
            ++ [(decide (b.base.calls < 10) && !hexc, b.base.calls, hexc)], P x
          exact hinv2
        · rename_i t ho
          exact ih (i + 1) _ t (by simpa using hinv2)

theorem ttmLoop_budget (env : TroubleMaker.TtmEnv)
    (oracle : Nat → Bool → Except PyExc Turn) (B : Nat)
    (hobey : ∀ i t, oracle i false = .ok t → t.tool_calls = [])
    (hB : ∀ i bo t, oracle i bo = .ok t → t.tool_calls.length ≤ B) :
    ∀ (fuel i : Nat) (st : TroubleMaker.TtmState),
      st.n_calls ≤ TroubleMaker.max_calls - 1 + B →
      ((TroubleMaker.ttmLoop env oracle fuel i st).state).n_calls
        ≤ TroubleMaker.max_calls - 1 + B := by
  intro fuel
  induction fuel with
  | zero =>
    intro i st hinv
    unfold TroubleMaker.ttmLoop
    split <;> exact hinv
  | succ fuel ih =>
    intro i st hinv
    unfold TroubleMaker.ttmLoop
    split
    · exact hinv
    · rename_i hfin
      rw [Bool.not_eq_true] at hfin
      rw [hfin]
      simp only [Bool.not_false, Bool.and_true]
      by_cases hn : st.n_calls < TroubleMaker.max_calls
      · rw [decide_eq_true hn]
        split
        · exact hinv
        · rename_i t ho
          have hlen : t.tool_calls.length ≤ B := hB i true t ho
          have hbound : st.n_calls + t.tool_calls.length
              ≤ TroubleMaker.max_calls - 1 + B :=
            Nat.add_le_add (Nat.lt_succ_iff.mp hn) hlen
          split
          · rename_i e st3 heq
            show st3.n_calls ≤ TroubleMaker.max_calls - 1 + B
            obtain ⟨hle, -⟩ := (ttmBatch_spec env t.tool_calls _).2 e st3 heq
            exact le_trans (by simpa using hle) hbound
          · rename_i st3 heq
            refine ih (i + 1) _ ?_
            obtain ⟨hne, -⟩ := (ttmBatch_spec env t.tool_calls _).1 st3 heq
            show st3.n_calls ≤ TroubleMaker.max_calls - 1 + B
            rw [hne]
            simpa using hbound
      · rw [decide_eq_false hn]
        split
        · exact hinv
        · rename_i t ho
          rw [hobey i t ho]
          split
          · rename_i e st3 heq
            unfold TroubleMaker.ttmBatch at heq
            cases heq
          · rename_i st3 heq
            unfold TroubleMaker.ttmBatch at heq
            cases heq
            refine ih (i + 1) _ ?_
            simpa using hinv

theorem ttmLoop_modelLog_inv (env : TroubleMaker.TtmEnv)
    (oracle : Nat → Bool → Except PyExc Turn) (P : Bool × Nat → Prop)
    (hP : ∀ n, P (decide (n < TroubleMaker.max_calls), n)) :
    ∀ (fuel i : Nat) (st : TroubleMaker.TtmState),
      (∀ x ∈ st.modelLog, P x) →
      ∀ x ∈ ((TroubleMaker.ttmLoop env oracle fuel i st).state).modelLog, P x := by
  intro fuel
  induction fuel with
  | zero =>
    intro i st hinv
    unfold TroubleMaker.ttmLoop
    split <;> exact hinv
  | succ fuel ih =>
    intro i st hinv
    unfold TroubleMaker.ttmLoop
    split
    · exact hinv
    · rename_i hfin
      rw [Bool.not_eq_true] at hfin
      rw [hfin]
      simp only [Bool.not_false, Bool.and_true]
      have hinv2 : ∀ x ∈ st.modelLog
          ++ [(decide (st.n_calls < TroubleMaker.max_calls), st.n_calls)], P x := by
        intro x hx
        rcases List.mem_append.mp hx with hx1 | hx2
        · exact hinv x hx1
        · rw [List.mem_singleton] at hx2
          subst hx2
          exact hP _
      split
      · exact hinv2
      · rename_i t ho
        split
        · rename_i e st3 heq
          show ∀ x ∈ st3.modelLog, P x
          obtain ⟨-, hl⟩ := (ttmBatch_spec env t.tool_calls _).2 e st3 heq
          intro x hx
          rw [hl] at hx
          exact hinv2 x (by simpa using hx)
        · rename_i st3 heq
          refine ih (i + 1) _ ?_
          obtain ⟨-, hl⟩ := (ttmBatch_spec env t.tool_calls _).1 st3 heq
          intro x hx
          have hx2 : x ∈ st3.modelLog := hx
          rw [hl] at hx2
          exact hinv2 x (by simpa using hx2)

/-- The amazon server SSE wrapper always terminates the byte stream with the
`[DONE]` frame, and a raising generator gets an error frame right before it. -/
theorem stream_reader_frames (uuid : String) (created : Nat) :
    ∀ evs : List AmazonServer.SREvent,
      (∃ pre, AmazonServer.stream_reader uuid created evs
        = pre ++ [AmazonServer.doneFrame])
      ∧ (∀ e, AmazonServer.firstRaiseSR evs = some e →
          ∃ pre, AmazonServer.stream_reader uuid created evs
            = pre ++ [AmazonServer.dataFrame
                (AmazonServer.promptErrorJson (AmazonServer.classify_sr e)),
              AmazonServer.doneFrame]) := by
  intro evs
  induction evs with
  | nil =>
    constructor
    · exact ⟨[], rfl⟩
    · intro e he
      simp [AmazonServer.firstRaiseSR] at he
  | cons ev rest ih =>
    obtain ⟨⟨pre1, h1⟩, h2⟩ := ih
    cases ev with
    | raiseEv e0 =>
      constructor
      · exact ⟨[AmazonServer.dataFrame
          (AmazonServer.promptErrorJson (AmazonServer.classify_sr e0))], rfl⟩
      · intro e he
        have he0 : e0 = e := by simpa [AmazonServer.firstRaiseSR] using he
        subst he0
        exact ⟨[], rfl⟩
    | strChunk s =>
      constructor
      · refine ⟨AmazonServer.dataFrame (AmazonServer.chunkJson uuid created s "assistant")
          :: pre1, ?_⟩
        simp [AmazonServer.stream_reader, h1]
      · intro e he
        have he' : AmazonServer.firstRaiseSR rest = some e := by
          simpa [AmazonServer.firstRaiseSR] using he
        obtain ⟨pre2, hp2⟩ := h2 e he'
        refine ⟨AmazonServer.dataFrame (AmazonServer.chunkJson uuid created s "assistant")
          :: pre2, ?_⟩
        simp [AmazonServer.stream_reader, hp2]
    | bytesChunk bts =>
      constructor
      · exact ⟨bts :: pre1, by simp [AmazonServer.stream_reader, h1]⟩
      · intro e he
        have he' : AmazonServer.firstRaiseSR rest = some e := by
          simpa [AmazonServer.firstRaiseSR] using he
        obtain ⟨pre2, hp2⟩ := h2 e he'
        exact ⟨bts :: pre2, by simp [AmazonServer.stream_reader, hp2]⟩
    | noneChunk =>
      constructor
      · exact ⟨pre1, by simpa [AmazonServer.stream_reader] using h1⟩
      · intro e he
        have he' : AmazonServer.firstRaiseSR rest = some e := by
          simpa [AmazonServer.firstRaiseSR] using he
        obtain ⟨pre2, hp2⟩ := h2 e he'
        exact ⟨pre2, by simpa [AmazonServer.stream_reader] using hp2⟩

/-- The TroubleMaker SSE wrapper appends `[DONE]` only when the generator
finishes without raising; a raised exception propagates past it. -/
theorem to_bytes_frames :
    ∀ evs : List TroubleMaker.TBEvent,
      (TroubleMaker.firstRaiseTB evs = none →
        (TroubleMaker.to_bytes evs).2 = none
        ∧ ∃ pre, (TroubleMaker.to_bytes evs).1 = pre ++ ["data: [DONE]\n\n"])
      ∧ (∀ e, TroubleMaker.firstRaiseTB evs = some e →
        (TroubleMaker.to_bytes evs).2 = some e) := by
  intro evs
  induction evs with
  | nil =>
    constructor
    · intro _
      exact ⟨rfl, ⟨[], rfl⟩⟩
    · intro e he
      simp [TroubleMaker.firstRaiseTB] at he
  | cons ev rest ih =>
    obtain ⟨h1, h2⟩ := ih
    cases ev with
    | raiseEv e0 =>
      constructor
      · intro he
        simp [TroubleMaker.firstRaiseTB] at he
      · intro e he
        have he0 : e0 = e := by simpa [TroubleMaker.firstRaiseTB] using he
        subst he0
        exact rfl
    | streamChunk j =>
      constructor
      · intro he
        have he' : TroubleMaker.firstRaiseTB rest = none := by
          simpa [TroubleMaker.firstRaiseTB] using he
        obtain ⟨hp, pre, hpre⟩ := h1 he'
        constructor
        · simpa [TroubleMaker.to_bytes] using hp
        · exact ⟨("data: " ++ j ++ "\n\n") :: pre, by simp [TroubleMaker.to_bytes, hpre]⟩
      · intro e he
        have he' : TroubleMaker.firstRaiseTB rest = some e := by
          simpa [TroubleMaker.firstRaiseTB] using he
        simpa [TroubleMaker.to_bytes] using h2 e he'
    | completionChunk =>
      constructor
      · intro he
        have he' : TroubleMaker.firstRaiseTB rest = none := by
          simpa [TroubleMaker.firstRaiseTB] using he
        obtain ⟨hp, pre, hpre⟩ := h1 he'
        exact ⟨by simpa [TroubleMaker.to_bytes] using hp,
          ⟨pre, by simpa [TroubleMaker.to_bytes] using hpre⟩⟩
      · intro e he
        have he' : TroubleMaker.firstRaiseTB rest = some e := by
          simpa [TroubleMaker.firstRaiseTB] using he
        simpa [TroubleMaker.to_bytes] using h2 e he'

/-- `get_agent_for_tool` takes one of three values. -/
theorem get_agent_cases (n : String) :
    AmazonAgent.get_agent_for_tool n = "shopping_browsing"
    ∨ AmazonAgent.get_agent_for_tool n = "purchase_management"
    ∨ AmazonAgent.get_agent_for_tool n = "unknown" := by
  unfold AmazonAgent.get_agent_for_tool
  split
  · exact .inl rfl
  · split
    · exact .inr (.inl rfl)
    · exact .inr (.inr rfl)

/-- The handoff guard fires exactly when the previous group is a non-empty
string different from the current known group. -/
theorem handoffList_fires (p g : String)
    (hp : p ≠ "") (hne : g ≠ p) (hg : g ≠ "unknown")
    (hgroups : g = "shopping_browsing" ∨ g = "purchase_management") :
    AmazonAgent.handoffList (some p) g
      = [sysMsg (if g == "purchase_management" then AmazonAgent.purchase_handoff_text
                 else AmazonAgent.shopping_handoff_text)] := by
  unfold AmazonAgent.handoffList
  have hcond : ((p != "" && g != p) && g != "unknown") = true := by
    simp [hp, hg]
    simpa [bne] using hne
  rcases hgroups with h | h
  · subst h
    simp only [hcond, if_true]
    rfl
  · subst h
    simp only [hcond, if_true]
    rfl

/-- Number of system-role messages. -/
def sysCount (l : List InMsg) : Nat := (l.filter (fun m => isSysMsg m)).length

theorem flattenUserContent_shape (pres : String → String → Option String)
    (ps : List ContentPart) (r : InMsg)
    (h : AmazonAgent.flattenUserContent pres ps = .ok r) :
    r.role = some "user" := by
  unfold AmazonAgent.flattenUserContent at h
  cases hf : AmazonAgent.flattenItems pres ("", []) ps with
  | error e => rw [hf] at h; cases h
  | ok acc => rw [hf] at h; cases h; rfl

theorem flattenUserContentPB_shape (ps : List ContentPart) (r : InMsg)
    (h : PromptBased.flattenUserContentPB ps = .ok r) :
    r.role = some "user" := by
  unfold PromptBased.flattenUserContentPB at h
  cases hf : PromptBased.flattenItemsPB "" ps with
  | error e => rw [hf] at h; cases h
  | ok acc => rw [hf] at h; cases h; rfl

/-- Per-message behaviour of the amazon refiner: the system flag is
preserved, and a system message with string content gets the prompt
appended. -/
theorem refineMsg_spec (pres : String → String → Option String) (p : String)
    (m r : InMsg) (h : AmazonAgent.refineMsg pres p m = .ok r) :
    isSysMsg r = isSysMsg m
    ∧ (isSysMsg m = true → r.role = m.role
        ∧ ∀ s, m.content = some (.str s) → r.content = some (.str (s ++ "\n" ++ p))) := by
  unfold AmazonAgent.refineMsg at h
  by_cases hs : isSysMsg m = true
  · simp only [hs, if_true] at h
    cases hc : sysAppend m.content p with
    | error e => rw [hc] at h; cases h
    | ok c =>
      rw [hc] at h
      cases h
      refine ⟨by simp [isSysMsg], fun _ => ⟨rfl, fun s hcs => ?_⟩⟩
      rw [hcs] at hc
      unfold sysAppend at hc
      cases hc
      rfl
  · rw [Bool.not_eq_true] at hs
    simp only [hs, Bool.false_eq_true, if_false] at h
    refine ⟨?_, fun habs => absurd habs (by rw [hs]; simp)⟩
    by_cases hu : (m.role.getD "undefined" == "user") = true
    · simp only [hu, if_true] at h
      cases hmc : m.content with
      | none => rw [hmc] at h; cases h; rfl
      | some ct =>
        cases ct with
        | str s => rw [hmc] at h; cases h; rfl
        | parts ps =>
          rw [hmc] at h
          have hrole := flattenUserContent_shape pres ps r h
          rw [isSysMsg, hrole, hs]
          rfl
    · simp only [Bool.not_eq_true] at hu
      simp only [hu, Bool.false_eq_true, if_false] at h
      cases h
      rfl

theorem refineList_spec (pres : String → String → Option String) (p : String) :
    ∀ (msgs out : List InMsg), AmazonAgent.refineList pres p msgs = .ok out →
      List.Forall₂ (fun m r => isSysMsg r = isSysMsg m
        ∧ (isSysMsg m = true → r.role = m.role
            ∧ ∀ s, m.content = some (.str s)
              → r.content = some (.str (s ++ "\n" ++ p)))) msgs out := by
  intro msgs
  induction msgs with
  | nil =>
    intro out h
    unfold AmazonAgent.refineList at h
    cases h
    exact List.Forall₂.nil
  | cons m rest ih =>
    intro out h
    unfold AmazonAgent.refineList at h
    cases hm : AmazonAgent.refineMsg pres p m with
    | error e => rw [hm] at h; cases h
    | ok r =>
      rw [hm] at h
      cases hl : AmazonAgent.refineList pres p rest with
      | error e => rw [hl] at h; cases h
      | ok rs =>
        rw [hl] at h
        cases h
        exact List.Forall₂.cons (refineMsg_spec pres p m r hm) (ih rs hl)

/-- Per-message behaviour of the prompt-based refiner. -/
theorem refineMsgPB_spec (p : String) (m r : InMsg)
    (h : PromptBased.refineMsgPB p m = .ok r) :
    isSysMsg r = isSysMsg m
    ∧ (isSysMsg m = true → r.role = m.role
        ∧ ∀ s, m.content = some (.str s) → r.content = some (.str (s ++ "\n" ++ p))) := by
  unfold PromptBased.refineMsgPB at h
  by_cases hs : isSysMsg m = true
  · simp only [hs, if_true] at h
    cases hc : sysAppend m.content p with
    | error e => rw [hc] at h; cases h
    | ok c =>
      rw [hc] at h
      cases h
      refine ⟨by simp [isSysMsg], fun _ => ⟨rfl, fun s hcs => ?_⟩⟩
      rw [hcs] at hc
      unfold sysAppend at hc
      cases hc
      rfl
  · rw [Bool.not_eq_true] at hs
    simp only [hs, Bool.false_eq_true, if_false] at h
    refine ⟨?_, fun habs => absurd habs (by rw [hs]; simp)⟩
    by_cases hu : (m.role.getD "undefined" == "user") = true
    · simp only [hu, if_true] at h
      cases hmc : m.content with
      | none =>
        rw [hmc] at h
        cases h
        cases hr : m.role <;> simp [isSysMsg, hr]
      | some ct =>
        cases ct with
        | str s =>
          rw [hmc] at h
          cases h
          cases hr : m.role <;> simp [isSysMsg, hr]
        | parts ps =>
          rw [hmc] at h
          have hrole := flattenUserContentPB_shape ps r h
          rw [isSysMsg, hrole, hs]
          rfl
    · simp only [Bool.not_eq_true] at hu
      simp only [hu, Bool.false_eq_true, if_false] at h
      cases hmc : m.content with
      | none =>
        rw [hmc] at h
        cases h
        cases hr : m.role <;> simp [isSysMsg, hr]
      | some ct =>
        cases ct with
        | str s =>
          rw [hmc] at h
          cases h
          cases hr : m.role <;> simp [isSysMsg, hr]
        | parts ps => rw [hmc] at h; cases h

theorem refineListPB_spec (p : String) :
    ∀ (msgs out : List InMsg), PromptBased.refineListPB p msgs = .ok out →
      List.Forall₂ (fun m r => isSysMsg r = isSysMsg m
        ∧ (isSysMsg m = true → r.role = m.role
            ∧ ∀ s, m.content = some (.str s)
              → r.content = some (.str (s ++ "\n" ++ p)))) msgs out := by
  intro msgs
  induction msgs with
  | nil =>
    intro out h
    unfold PromptBased.refineListPB at h
    cases h
    exact List.Forall₂.nil
  | cons m rest ih =>
    intro out h
    unfold PromptBased.refineListPB at h
    cases hm : PromptBased.refineMsgPB p m with
    | error e => rw [hm] at h; cases h
    | ok r =>
      rw [hm] at h
      cases hl : PromptBased.refineListPB p rest with
      | error e => rw [hl] at h; cases h
      | ok rs =>
        rw [hl] at h
        cases h
        exact List.Forall₂.cons (refineMsgPB_spec p m r hm) (ih rs hl)

theorem sysCount_rel {msgs out : List InMsg}
    (h : List.Forall₂ (fun m r => isSysMsg r = isSysMsg m) msgs out) :
    sysCount out = sysCount msgs := by
  induction h with
  | nil => rfl
  | cons hrel hrest ih =>
    unfold sysCount at ih ⊢
    rw [List.filter_cons, List.filter_cons, hrel]
    rename_i m r ms rs
    cases isSysMsg m <;> simp [ih]

theorem sysCount_eq_zero {l : List InMsg} (h : ∀ m ∈ l, isSysMsg m = false) :
    sysCount l = 0 := by
  unfold sysCount
  have hnil : l.filter (fun m => isSysMsg m) = [] := by
    rw [List.filter_eq_nil_iff]
    intro a ha
    simp [h a ha]
  rw [hnil]
  rfl

theorem timeNote_append_ne (p now : String) :
    (p ++ PromptBased.timeNote now) ≠ "" := by
  intro h
  have hlen := congrArg String.length h
  rw [String.length_append] at hlen
  unfold PromptBased.timeNote at hlen
  rw [String.length_append, String.length_append] at hlen
  have h1 : ("\nNote: Current time is " : String).length = 23 := rfl
  have h2 : (" UTC (only use this information when being asked or for searching purposes)" : String).length = 75 := rfl
  have h0 : ("" : String).length = 0 := rfl
  rw [h1, h2, h0] at hlen
  omega

/-! ## Further concrete fixtures -/

def emptyBatch : AmazonAgent.BatchSt := ⟨⟨[], none, 0, [], []⟩, []⟩

def pbEnv : PromptBased.MCPEnv := ⟨["search_web"], fun _ _ => .ok [.text "hi"]⟩

/-- One turn with two distinct calls, then a stop. -/
def twoCallOracle : Nat → Bool → Except PyExc Turn :=
  turnsOracle [⟨some "a", [⟨"id1", "search_products", "\x7b\x7d"⟩,
                           ⟨"id2", "get_product_detail", "\x7b\x7d"⟩]⟩]

/-- Two turns, each emitting the same call (same name and arguments). -/
def repeatOracle : Nat → Bool → Except PyExc Turn :=
  turnsOracle [⟨some "a", [⟨"i1", "search_products", "\x7b\x7d"⟩]⟩,
               ⟨some "b", [⟨"i2", "search_products", "\x7b\x7d"⟩]⟩]

/-- A model that emits one call on the first schema-carrying turn and no
calls otherwise — in particular none when the schema is omitted. -/
def obedientOracle : Nat → Bool → Except PyExc Turn :=
  fun i bo => .ok ⟨some "x", if bo && i == 0 then [⟨"1", "search", "\x7b\x7d"⟩] else []⟩

/-! ## The claims -/

/-- C1 counterexample: a single turn carrying 26 distinct tool calls is
executed in full by the TroubleMaker loop, so the request performs 26
executions although `max_calls = 25` — the claimed request-wide bound fails. -/
theorem budget_exceeded_cex :
    (TroubleMaker.handle_request okEnvT (turnsOracle [⟨some "a", mkCalls 26⟩]) 3 []).state.n_calls
      = 26
    ∧ ¬ (26 ≤ TroubleMaker.max_calls) := ⟨rfl, by decide⟩

/-- C1 (amended): the loop executes every call of an emitted batch, so the
budget only bounds executions batch-wise: if the model emits tool calls only
while the schema is attached and at most `B` per turn, total executed calls
stay within `max_calls - 1 + B` (so within `max_calls` for single-call
turns); a single larger batch can push executions past `max_calls`. -/
theorem budget_bound (env : TroubleMaker.TtmEnv)
    (oracle : Nat → Bool → Except PyExc Turn) (B fuel : Nat) (initMsgs : List Msg)
    (hobey : ∀ i t, oracle i false = .ok t → t.tool_calls = [])
    (hB : ∀ i bo t, oracle i bo = .ok t → t.tool_calls.length ≤ B) :
    ((TroubleMaker.handle_request env oracle fuel initMsgs).state).n_calls
      ≤ TroubleMaker.max_calls - 1 + B :=
  ttmLoop_budget env oracle B hobey hB fuel 0 ⟨initMsgs, 0, false, []⟩ (Nat.zero_le _)

theorem budget_bound_witness :
    ((TroubleMaker.handle_request okEnvT obedientOracle 5 []).state).n_calls
      ≤ TroubleMaker.max_calls - 1 + 1 :=
  budget_bound okEnvT obedientOracle 1 5 []
    (fun _ _ h => by cases h; rfl)
    (fun i bo t h => by
      cases h
      by_cases hc : (bo && (i == 0)) = true <;> simp [hc])

/-- C2 counterexample: a batch of two calls whose first handler raises — the
assistant message carries both ids but only the first receives a tool
message; the second id is left unanswered. -/
theorem orphaned_tool_id_cex :
    ((AmazonAgent.prompt raiseEnvA twoCallOracle 3 []).state.messages.head?).map
        (fun m => m.tool_calls.map ToolCall.id) = some ["id1", "id2"]
    ∧ toolIds ((AmazonAgent.prompt raiseEnvA twoCallOracle 3 []).state.messages)
      = ["id1"] := ⟨rfl, rfl⟩

/-- C2 (amended): the tool messages of a batch answer exactly the first `n`
calls, in order, each exactly once — all calls when no handler raises; when a
handler raises, its own id still gets one (error-text) message but every
later id in the batch gets none; an argument-parse failure stops the batch at
the failing call with no message for it. -/
theorem tool_messages_answer_first_calls (env : AmazonAgent.Env)
    (cs : List ToolCall) (b : AmazonAgent.BatchSt) :
    (∀ b1 hexc n, AmazonAgent.processBatch env b cs = .ok (b1, hexc, n) →
      (∃ Δ, b1.base.messages = b.base.messages ++ Δ
          ∧ toolIds Δ = (cs.take n).map ToolCall.id)
      ∧ n ≤ cs.length ∧ (hexc = false → n = cs.length))
    ∧ (∀ e b1 n, AmazonAgent.processBatch env b cs = .error (e, b1, n) →
      (∃ Δ, b1.base.messages = b.base.messages ++ Δ
          ∧ toolIds Δ = (cs.take n).map ToolCall.id)
      ∧ n < cs.length) :=
  ⟨fun b1 hexc n h => processBatch_ok_toolIds env cs b b1 hexc n h,
   fun e b1 n h => processBatch_error_toolIds env cs b b1 e n h⟩

theorem tool_messages_answer_first_calls_witness :
    (∃ Δ, (⟨⟨[toolMsg "id1" (pyJsonDumps "done\n")], some "shopping_browsing", 0,
        ["search_products\x7b\x7d"], []⟩, ["search_products\x7b\x7d"]⟩
          : AmazonAgent.BatchSt).base.messages = emptyBatch.base.messages ++ Δ
      ∧ toolIds Δ
        = (([⟨"id1", "search_products", "\x7b\x7d"⟩] : List ToolCall).take 1).map ToolCall.id)
    ∧ 1 ≤ ([⟨"id1", "search_products", "\x7b\x7d"⟩] : List ToolCall).length
    ∧ (false = false → 1 = ([⟨"id1", "search_products", "\x7b\x7d"⟩] : List ToolCall).length) :=
  (tool_messages_answer_first_calls okEnvA [⟨"id1", "search_products", "\x7b\x7d"⟩] emptyBatch).1
    _ false 1 rfl

/-- C3 counterexample: the same call (identical name and arguments) emitted
in two different turns of one request is dispatched twice — the dedup set is
re-initialised per turn, so the scope is not the whole request. -/
theorem dedup_scope_cex :
    (AmazonAgent.prompt okEnvA repeatOracle 5 []).state.dispatchLog
      = ["search_products\x7b\x7d", "search_products\x7b\x7d"]
    ∧ ¬ (["search_products\x7b\x7d", "search_products\x7b\x7d"] : List String).Nodup :=
  ⟨rfl, by decide⟩

/-- C3 (amended): deduplication is scoped to one turn's batch — the
`executed` set starts empty each batch: within a batch each identity key is
dispatched at most once (the dispatch log extends exactly by the new set,
which stays duplicate-free), and a repeated key is answered with the
"previously executed, skipping" notice without invoking the handler; the set
does not survive to later turns, and the TroubleMaker loop deduplicates
nothing. -/
theorem dedup_within_batch (env : AmazonAgent.Env) (cs : List ToolCall)
    (b : AmazonAgent.BatchSt) (c : ToolCall) (args : String) :
    (∀ b1 hexc n, b.executed = [] → AmazonAgent.processBatch env b cs = .ok (b1, hexc, n) →
      b1.executed.Nodup
      ∧ b1.base.dispatchLog = b.base.dispatchLog ++ b1.executed)
    ∧ (env.parse c.arguments = .ok args →
       b.executed.contains (c.name ++ c.arguments) = true →
       AmazonAgent.processCall env b c = .ok
         (⟨⟨b.base.messages
              ++ AmazonAgent.handoffList b.base.previous_agent
                  (AmazonAgent.get_agent_for_tool c.name)
              ++ [toolMsg c.id (pyJsonDumps (AmazonAgent.refine_mcp_response
                   (AmazonAgent.skipText c.name args)))],
            some (AmazonAgent.get_agent_for_tool c.name), b.base.calls,
            b.base.dispatchLog, b.base.modelLog⟩,
           b.executed⟩, false, .dup)) := by
  constructor
  · intro b1 hexc n hemp h
    obtain ⟨new, he, hd, hnd⟩ := processBatch_dispatch env cs b b1 hexc n h
    constructor
    · exact hnd (hemp ▸ List.nodup_nil)
    · rw [hd, he, hemp]
      simp
  · exact fun hp hdup => processCall_dup_notice env b c args hp hdup

theorem dedup_within_batch_witness :
    (["search_products\x7b\x7d"] : List String).Nodup
    ∧ (["search_products\x7b\x7d"] : List String)
        = emptyBatch.base.dispatchLog ++ ["search_products\x7b\x7d"] := by
  have h := (dedup_within_batch okEnvA [⟨"id1", "search_products", "\x7b\x7d"⟩]
      emptyBatch ⟨"id1", "search_products", "\x7b\x7d"⟩ "\x7b\x7d").1
    ⟨⟨[toolMsg "id1" (pyJsonDumps "done\n")], some "shopping_browsing", 0,
      ["search_products\x7b\x7d"], []⟩, ["search_products\x7b\x7d"]⟩ false 1 rfl rfl
  exact h

/-- C4 counterexample: one tool call whose arguments string is not valid
JSON — the run ends as an unhandled error and no tool message is appended
for the call's id, so the failure is not surfaced to the model and the
request is aborted. -/
theorem parse_error_abort_cex :
    (AmazonAgent.prompt failParseEnvA
        (turnsOracle [⟨some "a", [⟨"id1", "search_products", "not json"⟩]⟩]) 3 []).errMsg
      = some "Unhandled error: Expecting value: line 1 column 1 (char 0)"
    ∧ toolIds (AmazonAgent.prompt failParseEnvA
        (turnsOracle [⟨some "a", [⟨"id1", "search_products", "not json"⟩]⟩]) 3 []).state.messages
      = [] := ⟨rfl, rfl⟩

/-- C4 (amended): invalid JSON arguments make `json.loads` raise before any
handling of the call: the batch aborts at the failing call with the state
unchanged — no tool-error message for the call's id — and the loop converts
the exception into a terminal unhandled-error outcome instead of letting the
model retry. -/
theorem parse_error_aborts (env : AmazonAgent.Env) (b : AmazonAgent.BatchSt)
    (c : ToolCall) (cs : List ToolCall) (e : String)
    (hp : env.parse c.arguments = .error e) :
    AmazonAgent.processBatch env b (c :: cs) = .error (e, b, 0)
    ∧ ∀ (oracle : Nat → Bool → Except PyExc Turn) (fuel i : Nat)
        (st : AmazonAgent.AmState) (tc : Option String),
        AmazonAgent.amLoop env oracle (fuel + 1) i st ⟨tc, c :: cs⟩
          = .err { st with calls := st.calls + (c :: cs).length }
              ("Unhandled error: " ++ e) := by
  have hbatch : ∀ b2 : AmazonAgent.BatchSt,
      AmazonAgent.processBatch env b2 (c :: cs) = .error (e, b2, 0) := by
    intro b2
    unfold AmazonAgent.processBatch AmazonAgent.processCall
    rw [hp]
  refine ⟨hbatch b, ?_⟩
  intro oracle fuel i st tc
  unfold AmazonAgent.amLoop
  rw [if_neg (by simp)]
  rw [hbatch ⟨{ st with calls := st.calls + (c :: cs).length }, []⟩]

theorem parse_error_aborts_witness :
    AmazonAgent.processBatch failParseEnvA emptyBatch
        [⟨"id1", "search_products", "not json"⟩]
      = .error ("Expecting value: line 1 column 1 (char 0)", emptyBatch, 0) :=
  (parse_error_aborts failParseEnvA emptyBatch
    ⟨"id1", "search_products", "not json"⟩ []
    "Expecting value: line 1 column 1 (char 0)" rfl).1

/-- C5 counterexample: in the TroubleMaker server, a raising generator
produces no error frame and no `[DONE]` frame — the exception propagates
and the connection is dropped mid-stream. -/
theorem ttm_stream_drop_cex :
    TroubleMaker.to_bytes [.raiseEv (.apiConnection "x")]
      = ([], some (.apiConnection "x")) := rfl

/-- C5 (amended): the amazon server's `stream_reader` always ends the SSE
stream with `data: [DONE]` and, when the generator raises, emits a final
`{message, details}` error frame right before it; the TroubleMaker server's
`to_bytes` appends `[DONE]` only when the generator finishes without
raising — a raising generator drops the connection with neither frame. -/
theorem sse_error_frames (uuid : String) (created : Nat)
    (evs : List AmazonServer.SREvent) (tevs : List TroubleMaker.TBEvent) (e : PyExc) :
    (∃ pre, AmazonServer.stream_reader uuid created evs
        = pre ++ [AmazonServer.doneFrame])
    ∧ (AmazonServer.firstRaiseSR evs = some e →
        ∃ pre, AmazonServer.stream_reader uuid created evs
          = pre ++ [AmazonServer.dataFrame
              (AmazonServer.promptErrorJson (AmazonServer.classify_sr e)),
            AmazonServer.doneFrame])
    ∧ (TroubleMaker.firstRaiseTB tevs = none →
        (TroubleMaker.to_bytes tevs).2 = none
        ∧ ∃ pre, (TroubleMaker.to_bytes tevs).1 = pre ++ ["data: [DONE]\n\n"])
    ∧ (∀ e2, TroubleMaker.firstRaiseTB tevs = some e2 →
        (TroubleMaker.to_bytes tevs).2 = some e2) :=
  ⟨(stream_reader_frames uuid created evs).1,
   fun h => (stream_reader_frames uuid created evs).2 e h,
   (to_bytes_frames tevs).1,
   (to_bytes_frames tevs).2⟩

theorem sse_error_frames_witness :
    ∃ pre, AmazonServer.stream_reader "u" 0 [.raiseEv (.rateLimit "r")]
      = pre ++ [AmazonServer.dataFrame (AmazonServer.promptErrorJson
          (AmazonServer.classify_sr (.rateLimit "r"))), AmazonServer.doneFrame] :=
  (sse_error_frames "u" 0 [.raiseEv (.rateLimit "r")] [] (.rateLimit "r")).2.1 rfl

/-- C6: a tool call whose name resolves to no registered handler is answered
with a descriptive "unknown tool"/"not found" text result instead of an
exception, in both the amazon-agent dispatcher and the prompt-based
dispatcher, so the request continues. -/
theorem unknown_tool_self_corrects (env : AmazonAgent.Env)
    (menv : PromptBased.MCPEnv) (name args : String)
    (h1 : AmazonAgent.shopping_browsing_tools.contains name = false)
    (h2 : AmazonAgent.purchase_management_tools.contains name = false)
    (h3 : ∀ t ∈ menv.tools, PromptBased.compare_toolname name t = false) :
    AmazonAgent.execute_openai_compatible_toolcall env name args
        (AmazonAgent.get_agent_for_tool name)
      = ⟨[AmazonAgent.unknownToolText name], none⟩
    ∧ PromptBased.execute_openai_compatible_toolcall menv name args
      = .errResult ("Tool " ++ name ++ " not found") := by
  constructor
  · have hag : AmazonAgent.get_agent_for_tool name = "unknown" := by
      unfold AmazonAgent.get_agent_for_tool
      rw [h1, h2]
      simp
    rw [hag]
    rfl
  · unfold PromptBased.execute_openai_compatible_toolcall
    have hfil : menv.tools.filter (fun t => PromptBased.compare_toolname name t) = [] := by
      rw [List.filter_eq_nil_iff]
      intro t ht
      simp [h3 t ht]
    rw [hfil]

theorem unknown_tool_self_corrects_witness :
    AmazonAgent.execute_openai_compatible_toolcall okEnvA "frobnicate" "\x7b\x7d"
        (AmazonAgent.get_agent_for_tool "frobnicate")
      = ⟨[AmazonAgent.unknownToolText "frobnicate"], none⟩
    ∧ PromptBased.execute_openai_compatible_toolcall pbEnv "frobnicate" "\x7b\x7d"
      = .errResult ("Tool " ++ "frobnicate" ++ " not found") :=
  unknown_tool_self_corrects okEnvA pbEnv "frobnicate" "\x7b\x7d" rfl rfl (by decide)

/-- C7 counterexample: after a handler exception with only 2 of the budget
of 10 used, the next model call is made without the tool schema — so schema
attachment is not equivalent to `callsMade < maxCalls`. -/
theorem tools_attached_iff_cex :
    (AmazonAgent.prompt raiseEnvA twoCallOracle 3 []).state.modelLog
      = [(true, 0, false), (false, 2, true)]
    ∧ (2 < 10) := ⟨rfl, by decide⟩

/-- C7 (amended): the tool schema with `tool_choice="auto"` is attached iff
the budget is unexhausted and — in the amazon agent — the previous batch
raised no handler exception: every model call of a TroubleMaker run has
`attached = (n_calls < max_calls)`, and every model call of an amazon run
has `attached = (calls < 10 && !has_exception)`; budget exhaustion only
strips the schema, it is not an error. -/
theorem tools_attached_iff (envT : TroubleMaker.TtmEnv) (envA : AmazonAgent.Env)
    (oracleT oracleA : Nat → Bool → Except PyExc Turn) (fuelT fuelA : Nat)
    (initT initA : List Msg) :
    (∀ x ∈ ((TroubleMaker.handle_request envT oracleT fuelT initT).state).modelLog,
      x.1 = decide (x.2 < TroubleMaker.max_calls))
    ∧ (∀ x ∈ ((AmazonAgent.prompt envA oracleA fuelA initA).state).modelLog,
      x.1 = (decide (x.2.1 < 10) && !x.2.2)) := by
  constructor
  · exact ttmLoop_modelLog_inv envT oracleT
      (fun x => x.1 = decide (x.2 < TroubleMaker.max_calls)) (fun n => rfl)
      fuelT 0 ⟨initT, 0, false, []⟩ (by intro x hx; simp at hx)
  · unfold AmazonAgent.prompt
    split
    · intro x hx
      have hx1 : x ∈ [((true : Bool), (0 : Nat), false)] := hx
      rw [List.mem_singleton] at hx1
      subst hx1
      rfl
    · rename_i t ho
      refine amLoop_modelLog_inv envA oracleA
        (fun x => x.1 = (decide (x.2.1 < 10) && !x.2.2)) (fun c h => rfl)
        fuelA 1 _ t ?_
      intro x hx
      have hx1 : x ∈ [((true : Bool), (0 : Nat), false)] := hx
      rw [List.mem_singleton] at hx1
      subst hx1
      rfl

theorem tools_attached_iff_witness :
    ((true, 0) : Bool × Nat).1
      = decide (((true, 0) : Bool × Nat).2 < TroubleMaker.max_calls) :=
  (tools_attached_iff okEnvT okEnvA (turnsOracle [⟨some "a", mkCalls 1⟩])
      (turnsOracle []) 3 3 [] []).1 (true, 0) (by decide)

/-- C8: when the group of the current registered tool call differs from the
recorded previous capability group, the transient system message describing
the new group is appended to the message list (ahead of the call's own tool
message, hence before the next model turn), and the new group is recorded as
the current one. -/
theorem handoff_message_on_group_change (env : AmazonAgent.Env)
    (b b1 : AmazonAgent.BatchSt) (c : ToolCall) (hexc : Bool)
    (br : AmazonAgent.CallBranch) (p : String)
    (hrun : AmazonAgent.processCall env b c = .ok (b1, hexc, br))
    (hprev : b.base.previous_agent = some p)
    (hpg : p = "shopping_browsing" ∨ p = "purchase_management")
    (hknown : AmazonAgent.get_agent_for_tool c.name ≠ "unknown")
    (hdiff : AmazonAgent.get_agent_for_tool c.name ≠ p) :
    (∃ rest, b1.base.messages = b.base.messages
        ++ sysMsg (if AmazonAgent.get_agent_for_tool c.name == "purchase_management"
                   then AmazonAgent.purchase_handoff_text
                   else AmazonAgent.shopping_handoff_text) :: rest)
    ∧ b1.base.previous_agent = some (AmazonAgent.get_agent_for_tool c.name) := by
  obtain ⟨⟨last, hmsg, -, -⟩, hprev1, -, -, -⟩ :=
    processCall_ok_spec env b c b1 hexc br hrun
  have hpne : p ≠ "" := by rcases hpg with h | h <;> subst h <;> simp
  have hgroups : AmazonAgent.get_agent_for_tool c.name = "shopping_browsing"
      ∨ AmazonAgent.get_agent_for_tool c.name = "purchase_management" := by
    rcases get_agent_cases c.name with h | h | h
    · exact .inl h
    · exact .inr h
    · exact absurd h hknown
  rw [hprev, handoffList_fires p _ hpne hdiff hknown hgroups] at hmsg
  refine ⟨⟨[last], ?_⟩, hprev1⟩
  rw [hmsg]
  simp

theorem handoff_message_on_group_change_witness :
    (∃ rest, (⟨⟨[sysMsg AmazonAgent.purchase_handoff_text,
          toolMsg "9" (pyJsonDumps "done\n")], some "purchase_management", 0,
         ["cancel_order\x7b\x7d"], []⟩, ["cancel_order\x7b\x7d"]⟩
          : AmazonAgent.BatchSt).base.messages
      = (⟨⟨[], some "shopping_browsing", 0, [], []⟩, []⟩
          : AmazonAgent.BatchSt).base.messages
        ++ sysMsg (if AmazonAgent.get_agent_for_tool "cancel_order" == "purchase_management"
                   then AmazonAgent.purchase_handoff_text
                   else AmazonAgent.shopping_handoff_text) :: rest)
    ∧ (⟨⟨[sysMsg AmazonAgent.purchase_handoff_text,
          toolMsg "9" (pyJsonDumps "done\n")], some "purchase_management", 0,
         ["cancel_order\x7b\x7d"], []⟩, ["cancel_order\x7b\x7d"]⟩
          : AmazonAgent.BatchSt).base.previous_agent
      = some (AmazonAgent.get_agent_for_tool "cancel_order") :=
  handoff_message_on_group_change okEnvA
    ⟨⟨[], some "shopping_browsing", 0, [], []⟩, []⟩ _
    ⟨"9", "cancel_order", "\x7b\x7d"⟩ false .exec "shopping_browsing"
    rfl rfl (.inl rfl) (by decide) (by decide)

/-- C9: both `refine_chat_history` implementations carry the system prompt
exactly once per system message: with no system-role input (and a non-empty
prompt) a fresh system message heads the output — containing exactly the
prompt in the amazon agent, the prompt followed by the time note in the
prompt-based agent — and with a system-role input no message is added and
every system message gets the prompt appended to its string content. -/
theorem refine_chat_history_system_prompt :
    (∀ (pres : String → String → Option String) (msgs out : List InMsg) (p : String),
      AmazonAgent.refine_chat_history pres msgs p = .ok out → p ≠ "" →
      ((∀ m ∈ msgs, isSysMsg m = false) →
        out.head? = some ⟨some "system", some (.str p)⟩
        ∧ out.length = msgs.length + 1 ∧ sysCount out = 1)
      ∧ ((∃ m ∈ msgs, isSysMsg m = true) →
        out.length = msgs.length ∧ sysCount out = sysCount msgs
        ∧ List.Forall₂ (fun m r => isSysMsg m = true → r.role = m.role
            ∧ ∀ s, m.content = some (.str s)
              → r.content = some (.str (s ++ "\n" ++ p))) msgs out))
    ∧ (∀ (msgs out : List InMsg) (p now : String),
      PromptBased.refine_chat_history msgs p now = .ok out →
      ((∀ m ∈ msgs, isSysMsg m = false) →
        out.head? = some ⟨some "system", some (.str (p ++ PromptBased.timeNote now))⟩
        ∧ out.length = msgs.length + 1 ∧ sysCount out = 1)
      ∧ ((∃ m ∈ msgs, isSysMsg m = true) →
        out.length = msgs.length ∧ sysCount out = sysCount msgs
        ∧ List.Forall₂ (fun m r => isSysMsg m = true → r.role = m.role
            ∧ ∀ s, m.content = some (.str s)
              → r.content = some (.str (s ++ "\n" ++ (p ++ PromptBased.timeNote now))))
          msgs out)) := by
  constructor
  · intro pres msgs out p h hp
    unfold AmazonAgent.refine_chat_history at h
    cases hl : AmazonAgent.refineList pres p msgs with
    | error e => rw [hl] at h; cases h
    | ok refined =>
      rw [hl] at h
      have hrel := refineList_spec pres p msgs refined hl
      have hrel1 : List.Forall₂ (fun m r => isSysMsg r = isSysMsg m) msgs refined :=
        hrel.imp (fun _ _ hab => hab.1)
      have hrel2 := hrel.imp (fun _ _ hab => hab.2)
      have hlen : refined.length = msgs.length := hrel.length_eq.symm
      constructor
      · intro hall
        have hany : msgs.any isSysMsg = false := by
          simp only [List.any_eq_false]
          intro m hm
          simp [hall m hm]
        have hpb : (p != "") = true := by simpa using hp
        rw [hany] at h
        simp only [Bool.not_false, Bool.true_and, hpb, if_true] at h
        cases h
        refine ⟨rfl, by simp [hlen], ?_⟩
        have hrz : sysCount refined = 0 := by
          rw [sysCount_rel hrel1]
          exact sysCount_eq_zero hall
        unfold sysCount at hrz ⊢
        have hins : isSysMsg (⟨some "system", some (.str p)⟩ : InMsg) = true := rfl
        rw [List.filter_cons, if_pos hins, List.length_cons, hrz]
      · intro hex
        have hany : msgs.any isSysMsg = true := by
          rcases hex with ⟨m, hm, hsm⟩
          exact List.any_eq_true.mpr ⟨m, hm, hsm⟩
        rw [hany] at h
        simp only [Bool.not_true, Bool.false_and, Bool.false_eq_true, if_false] at h
        cases h
        exact ⟨hlen, sysCount_rel hrel1, hrel2⟩
  · intro msgs out p now h
    unfold PromptBased.refine_chat_history at h
    cases hl : PromptBased.refineListPB (p ++ PromptBased.timeNote now) msgs with
    | error e => rw [hl] at h; cases h
    | ok refined =>
      rw [hl] at h
      have hrel := refineListPB_spec (p ++ PromptBased.timeNote now) msgs refined hl
      have hrel1 : List.Forall₂ (fun m r => isSysMsg r = isSysMsg m) msgs refined :=
        hrel.imp (fun _ _ hab => hab.1)
      have hrel2 := hrel.imp (fun _ _ hab => hab.2)
      have hlen : refined.length = msgs.length := hrel.length_eq.symm
      constructor
      · intro hall
        have hany : msgs.any isSysMsg = false := by
          simp only [List.any_eq_false]
          intro m hm
          simp [hall m hm]
        have hpb : ((p ++ PromptBased.timeNote now) != "") = true := by
          simpa using timeNote_append_ne p now
        rw [hany] at h
        simp only [Bool.not_false, Bool.true_and, hpb, if_true] at h
        cases h
        refine ⟨rfl, by simp [hlen], ?_⟩
        have hrz : sysCount refined = 0 := by
          rw [sysCount_rel hrel1]
          exact sysCount_eq_zero hall
        unfold sysCount at hrz ⊢
        have hins : isSysMsg (⟨some "system",
            some (.str (p ++ PromptBased.timeNote now))⟩ : InMsg) = true := rfl
        rw [List.filter_cons, if_pos hins, List.length_cons, hrz]
      · intro hex
        have hany : msgs.any isSysMsg = true := by
          rcases hex with ⟨m, hm, hsm⟩
          exact List.any_eq_true.mpr ⟨m, hm, hsm⟩
        rw [hany] at h
        simp only [Bool.not_true, Bool.false_and, Bool.false_eq_true, if_false] at h
        cases h
        exact ⟨hlen, sysCount_rel hrel1, hrel2⟩

theorem refine_chat_history_system_prompt_witness :
    ([⟨some "system", some (.str "sys")⟩, ⟨some "user", some (.str "hi")⟩]
        : List InMsg).head? = some ⟨some "system", some (.str "sys")⟩ := by
  have h := (refine_chat_history_system_prompt.1 (fun _ _ => none)
    [⟨some "user", some (.str "hi")⟩]
    [⟨some "system", some (.str "sys")⟩, ⟨some "user", some (.str "hi")⟩]
    "sys" rfl (by decide)).1 (by decide)
  exact h.1

/-- C10: the branch answering a call with "Exception raised. Skipping
task..." is unreachable: `has_exception` is freshly `False` at its check, so
`processCall` never reports the `excSkip` branch, for any environment, state
and call. -/
theorem exc_skip_branch_unreachable (env : AmazonAgent.Env)
    (b : AmazonAgent.BatchSt) (c : ToolCall)
    (r : AmazonAgent.BatchSt × Bool × AmazonAgent.CallBranch)
    (h : AmazonAgent.processCall env b c = .ok r) :
    r.2.2 ≠ AmazonAgent.CallBranch.excSkip := by
  obtain ⟨-, -, -, -, hd⟩ := processCall_ok_spec env b c r.1 r.2.1 r.2.2 h
  rcases hd with ⟨-, -, hbr, -, -⟩ | ⟨-, -, hbr, -⟩ <;> rw [hbr] <;> simp

theorem exc_skip_branch_unreachable_witness :
    (⟨⟨⟨[toolMsg "1" (pyJsonDumps "done\n")], some "shopping_browsing", 0,
        ["search_products\x7b\x7d"], []⟩, ["search_products\x7b\x7d"]⟩, false,
      AmazonAgent.CallBranch.exec⟩
        : AmazonAgent.BatchSt × Bool × AmazonAgent.CallBranch).2.2
      ≠ AmazonAgent.CallBranch.excSkip :=
  exc_skip_branch_unreachable okEnvA emptyBatch
    ⟨"1", "search_products", "\x7b\x7d"⟩ _ rfl
